import Mathlib

/-!
Verification development for the agent execution loop and streaming
response-parsing pipeline of the acton-agent framework
(`acton_agent/agent/{parser,models,agent,agent_stream,retry,streaming_parser}.py`).

The Python code is shallowly embedded: pure helpers become Lean functions,
Python exceptions become `Option`/`Except` results, the mutable conversation
history becomes explicit state passing, and the ambient wall-clock timestamp
that the agent interpolates into its system message is abstracted as a plain
string parameter.  Python byte buffers are modelled at character granularity
(the byte values the code inspects are all ASCII delimiters, which UTF-8
continuation bytes can never collide with).
-/

/-! ## JSON values

`json.loads` produces Python values; we model those values as a `Json` tree.
Numbers keep their source lexeme (the agent never computes with them, it only
passes them through to tools). -/

inductive Json where
  | jnull : Json
  | jbool : Bool → Json
  | jnum : String → Json
  | jstr : String → Json
  | jarr : List Json → Json
  | jobj : List (String × Json) → Json
deriving Repr

/-- Whitespace accepted between JSON tokens by `json.loads` (space, tab, LF, CR). -/
def isJsonWs (c : Char) : Bool :=
  c = ' ' || c = '\t' || c = '\n' || c = '\r'

def skipWs : List Char → List Char
  | [] => []
  | c :: cs => if isJsonWs c then skipWs cs else c :: cs

def hexVal (c : Char) : Option Nat :=
  if '0' ≤ c ∧ c ≤ '9' then some (c.toNat - '0'.toNat)
  else if 'a' ≤ c ∧ c ≤ 'f' then some (c.toNat - 'a'.toNat + 10)
  else if 'A' ≤ c ∧ c ≤ 'F' then some (c.toNat - 'A'.toNat + 10)
  else none

def isDigitChar (c : Char) : Bool := '0' ≤ c ∧ c ≤ '9'

/-- Split a leading run of decimal digits off a character list. -/
def takeDigits : List Char → List Char × List Char
  | [] => ([], [])
  | c :: cs =>
    if isDigitChar c then
      let (ds, rest) := takeDigits cs
      (c :: ds, rest)
    else ([], c :: cs)

/-- Body of a JSON string literal (after the opening quote), with the escape
sequences `json.loads` accepts; raw control characters are rejected as in
strict mode.  Returns the decoded string and the remaining input. -/
def parseStrBody : Nat → List Char → List Char → Option (String × List Char)
  | 0, _, _ => none
  | _ + 1, _, [] => none
  | fuel + 1, acc, c :: cs =>
    if c = '"' then some (String.mk acc.reverse, cs)
    else if c = '\\' then
      match cs with
      | [] => none
      | e :: cs' =>
        if e = '"' then parseStrBody fuel ('"' :: acc) cs'
        else if e = '\\' then parseStrBody fuel ('\\' :: acc) cs'
        else if e = '/' then parseStrBody fuel ('/' :: acc) cs'
        else if e = 'b' then parseStrBody fuel ('\x08' :: acc) cs'
        else if e = 'f' then parseStrBody fuel ('\x0c' :: acc) cs'
        else if e = 'n' then parseStrBody fuel ('\n' :: acc) cs'
        else if e = 'r' then parseStrBody fuel ('\r' :: acc) cs'
        else if e = 't' then parseStrBody fuel ('\t' :: acc) cs'
        else if e = 'u' then
          match cs' with
          | h1 :: h2 :: h3 :: h4 :: cs'' =>
            match hexVal h1, hexVal h2, hexVal h3, hexVal h4 with
            | some v1, some v2, some v3, some v4 =>
              let code := ((v1 * 16 + v2) * 16 + v3) * 16 + v4
              parseStrBody fuel (Char.ofNat code :: acc) cs''
            | _, _, _, _ => none
          | _ => none
        else none
    else if c.toNat < 0x20 then none
    else parseStrBody fuel (c :: acc) cs

/-- A JSON number literal: optional minus, integer part (`0` or a nonzero
digit followed by digits), optional fraction, optional exponent. -/
def parseNum (cs : List Char) : Option (Json × List Char) :=
  let (sign, cs1) :=
    match cs with
    | '-' :: rest => (['-'], rest)
    | _ => (([] : List Char), cs)
  match cs1 with
  | [] => none
  | d :: rest =>
    if ¬ isDigitChar d then none
    else
      let (intDs, cs2) :=
        if d = '0' then ([d], rest)
        else
          let (ds, r) := takeDigits rest
          (d :: ds, r)
      let (fracDs, cs3) :=
        match cs2 with
        | '.' :: r =>
          let (ds, r') := takeDigits r
          if ds = [] then ([], cs2) else ('.' :: ds, r')
        | _ => ([], cs2)
      let fracOk : Bool :=
        match cs2 with
        | '.' :: r => !(takeDigits r).1.isEmpty
        | _ => true
      let (expDs, cs4, expOk) :=
        match cs3 with
        | e :: r =>
          if e = 'e' ∨ e = 'E' then
            let (sg, r1) :=
              match r with
              | s :: r' => if s = '+' ∨ s = '-' then ([s], r') else (([] : List Char), r)
              | [] => ([], r)
            let (ds, r2) := takeDigits r1
            if ds = [] then (([] : List Char), cs3, false)
            else (e :: (sg ++ ds), r2, true)
          else ([], cs3, true)
        | [] => ([], cs3, true)
      if fracOk ∧ expOk then
        some (Json.jnum (String.mk (sign ++ intDs ++ fracDs ++ expDs)), cs4)
      else none

/-- Match an exact keyword (`true`, `false`, `null` tails). -/
def matchLit : List Char → List Char → Option (List Char)
  | [], cs => some cs
  | _, [] => none
  | k :: ks, c :: cs => if c = k then matchLit ks cs else none

mutual

/-- One JSON value, embedding the grammar accepted by `json.loads`.
The fuel argument only bounds recursion depth; `jsonLoads` supplies
enough for any input. -/
def parseVal : Nat → List Char → Option (Json × List Char)
  | 0, _ => none
  | fuel + 1, cs =>
    match skipWs cs with
    | [] => none
    | c :: rest =>
      if c = '{' then
        match parseObjBody fuel rest with
        | some (ms, rest') => some (Json.jobj ms, rest')
        | none => none
      else if c = '[' then
        match parseArrBody fuel rest with
        | some (es, rest') => some (Json.jarr es, rest')
        | none => none
      else if c = '"' then
        match parseStrBody fuel [] rest with
        | some (s, rest') => some (Json.jstr s, rest')
        | none => none
      else if c = 't' then
        match matchLit ['r', 'u', 'e'] rest with
        | some rest' => some (Json.jbool true, rest')
        | none => none
      else if c = 'f' then
        match matchLit ['a', 'l', 's', 'e'] rest with
        | some rest' => some (Json.jbool false, rest')
        | none => none
      else if c = 'n' then
        match matchLit ['u', 'l', 'l'] rest with
        | some rest' => some (Json.jnull, rest')
        | none => none
      else parseNum (c :: rest)

/-- Object members after the opening brace. -/
def parseObjBody : Nat → List Char → Option (List (String × Json) × List Char)
  | 0, _ => none
  | fuel + 1, cs =>
    match skipWs cs with
    | [] => none
    | c :: rest =>
      if c = '}' then some ([], rest)
      else if c = '"' then
        match parseStrBody fuel [] rest with
        | some (k, rest1) =>
          match skipWs rest1 with
          | ':' :: rest2 =>
            match parseVal fuel rest2 with
            | some (v, rest3) =>
              match parseObjMore fuel rest3 with
              | some (ms, rest4) => some ((k, v) :: ms, rest4)
              | none => none
            | none => none
          | _ => none
        | none => none
      else none

/-- After one object member: either `,` and another member, or `}`. -/
def parseObjMore : Nat → List Char → Option (List (String × Json) × List Char)
  | 0, _ => none
  | fuel + 1, cs =>
    match skipWs cs with
    | '}' :: rest => some ([], rest)
    | ',' :: rest =>
      match skipWs rest with
      | '"' :: rest1 =>
        match parseStrBody fuel [] rest1 with
        | some (k, rest2) =>
          match skipWs rest2 with
          | ':' :: rest3 =>
            match parseVal fuel rest3 with
            | some (v, rest4) =>
              match parseObjMore fuel rest4 with
              | some (ms, rest5) => some ((k, v) :: ms, rest5)
              | none => none
            | none => none
          | _ => none
        | none => none
      | _ => none
    | _ => none

/-- Array elements after the opening bracket. -/
def parseArrBody : Nat → List Char → Option (List Json × List Char)
  | 0, _ => none
  | fuel + 1, cs =>
    match skipWs cs with
    | [] => none
    | c :: rest =>
      if c = ']' then some ([], rest)
      else
        match parseVal fuel (c :: rest) with
        | some (v, rest1) =>
          match parseArrMore fuel rest1 with
          | some (es, rest2) => some (v :: es, rest2)
          | none => none
        | none => none

/-- After one array element: either `,` and another element, or `]`. -/
def parseArrMore : Nat → List Char → Option (List Json × List Char)
  | 0, _ => none
  | fuel + 1, cs =>
    match skipWs cs with
    | ']' :: rest => some ([], rest)
    | ',' :: rest =>
      match parseVal fuel rest with
      | some (v, rest1) =>
        match parseArrMore fuel rest1 with
        | some (es, rest2) => some (v :: es, rest2)
        | none => none
      | none => none
    | _ => none

end

/-- Embedding of `json.loads` over a character list: parse one value and
require only trailing whitespace after it; any failure is the
`JSONDecodeError` path. -/
def jsonLoadsL (cs : List Char) : Option Json :=
  match parseVal (4 * cs.length + 16) cs with
  | some (j, rest) => if skipWs rest = [] then some j else none
  | none => none

/-- Embedding of `json.loads` on a string. -/
def jsonLoads (s : String) : Option Json := jsonLoadsL s.data

example : jsonLoads "null" = some Json.jnull := by rfl

example : jsonLoads " [1, 2] " = some (Json.jarr [Json.jnum "1", Json.jnum "2"]) := by rfl

example :
    jsonLoads "\x7b\"a\": \"b\"\x7d" = some (Json.jobj [("a", Json.jstr "b")]) := by rfl

example : jsonLoads "hello" = none := by rfl

/-! ## Python string stripping and markdown fence extraction

`ResponseParser._extract_json_from_markdown` applies two regexes:
first `^```(?:json)?\s*\n(.*?)\n```\s*$` with DOTALL and MULTILINE
(so the opening fence may sit at any line start and `$` may match before a
newline), then `^```(?:json)?\s*(.*?)```\s*$` with DOTALL over the stripped
text.  Both are embedded procedurally below; the matched group is stripped
before being returned, which makes the greedy/lazy split between `\s*` and
the lazy group immaterial.  `\s` and Python `str.strip` coincide on the
ASCII whitespace the code meets: space, tab, LF, CR, FF, VT. -/

def isPyWs (c : Char) : Bool :=
  c = ' ' || c = '\t' || c = '\n' || c = '\r' || c = '\x0b' || c = '\x0c'

def pyStripList (cs : List Char) : List Char :=
  ((cs.dropWhile isPyWs).reverse.dropWhile isPyWs).reverse

/-- Embedding of Python `str.strip()` (ASCII whitespace). -/
def pyStrip (s : String) : String := String.mk (pyStripList s.data)

def fenceChars : List Char := ['`', '`', '`']

def jsonTag : List Char := ['j', 's', 'o', 'n']

/-- Matching of `\s*\n` after the opening fence: skip regex whitespace up to and through
the first newline; fail if a non-whitespace character comes first. -/
def wsRunThroughNl : List Char → Option (List Char)
  | [] => none
  | c :: cs => if c = '\n' then some cs else if isPyWs c then wsRunThroughNl cs else none

/-- Matching of `\s*$` with MULTILINE after the closing fence: the remaining text up to
its first newline (or its end) must be all whitespace. -/
def tailOkMulti : List Char → Bool
  | [] => true
  | c :: cs => if c = '\n' then true else if isPyWs c then tailOkMulti cs else false

/-- Lazy search for the closing `\n``` ` of the multiline fence pattern:
the earliest position whose tail satisfies `\s*$`. -/
def findCloseMulti (acc : List Char) : List Char → Option (List Char)
  | [] => none
  | c :: cs =>
    if c = '\n' ∧ fenceChars.isPrefixOf cs ∧ tailOkMulti (cs.drop 3) then
      some acc.reverse
    else findCloseMulti (c :: acc) cs

/-- Try the multiline fence pattern anchored at one line start. -/
def matchFenceAt (cs : List Char) : Option (List Char) :=
  if fenceChars.isPrefixOf cs then
    let rest0 := cs.drop 3
    let rest1 := if jsonTag.isPrefixOf rest0 then rest0.drop 4 else rest0
    match wsRunThroughNl rest1 with
    | some content => findCloseMulti [] content
    | none => none
  else none

/-- Leftmost search of the multiline fence pattern over all line starts
(the `^` anchor under MULTILINE). -/
def searchFence (atStart : Bool) : List Char → Option (List Char)
  | [] => if atStart then matchFenceAt [] else none
  | c :: cs =>
    if atStart then
      match matchFenceAt (c :: cs) with
      | some g => some g
      | none => searchFence (c = '\n') cs
    else searchFence (c = '\n') cs

/-- Matching of `\s*$` without MULTILINE over pre-stripped text: the tail must be all
whitespace. -/
def tailOkSingle (cs : List Char) : Bool := cs.all isPyWs

/-- Lazy search for the closing fence of the single-line pattern. -/
def findCloseSingle (acc : List Char) : List Char → Option (List Char)
  | [] => none
  | c :: cs =>
    if fenceChars.isPrefixOf (c :: cs) ∧ tailOkSingle (cs.drop 2) then
      some acc.reverse
    else findCloseSingle (c :: acc) cs

/-- The single-line fence pattern, anchored at the start of the text. -/
def matchFenceSingle (cs : List Char) : Option (List Char) :=
  if fenceChars.isPrefixOf cs then
    let rest0 := cs.drop 3
    let rest1 := if jsonTag.isPrefixOf rest0 then rest0.drop 4 else rest0
    findCloseSingle [] rest1
  else none

/-- Embedding of `ResponseParser._extract_json_from_markdown`: strip, try the
multiline fence pattern, then the single-line one, else return the stripped
text unchanged. -/
def extractJsonFromMarkdown (text : String) : String :=
  let t := pyStripList text.data
  match searchFence true t with
  | some g => String.mk (pyStripList g)
  | none =>
    match matchFenceSingle t with
    | some g => String.mk (pyStripList g)
    | none => String.mk t

example :
    extractJsonFromMarkdown "```json\n\x7b\"a\": 1\x7d\n```"
      = "\x7b\"a\": 1\x7d" := by rfl

example :
    extractJsonFromMarkdown "```\x7b\"a\": 1\x7d```" = "\x7b\"a\": 1\x7d" := by rfl

example : extractJsonFromMarkdown "  plain text  " = "plain text" := by rfl

/-! ## Agent response models (`acton_agent/agent/models.py`)

The pydantic models are embedded as structures; constructing a model from a
parsed JSON object is embedded as an `Except`-returning function mirroring
the field declarations (`str` fields require JSON strings, required fields
must be present, `Optional` fields accept null/absence, extra keys are
ignored).  The text of a pydantic `ValidationError` is not reproduced; a
short message stands in for it. -/

structure ToolCall where
  id : String
  tool_name : String
  parameters : List (String × Json)
deriving Repr

structure ToolResult where
  tool_call_id : String
  tool_name : String
  result : String
  error : Option String
deriving Repr

/-- Embedding of `ToolResult.success`: the execution succeeded iff `error is None`. -/
def ToolResult.success (r : ToolResult) : Bool := r.error.isNone

structure AgentPlan where
  thought : String
  plan : List String
deriving Repr

structure AgentStep where
  thought : String
  tool_calls : List ToolCall
deriving Repr

structure AgentFinalResponse where
  thought : Option String
  final_answer : String
deriving Repr

/-- Lookup in a parsed JSON object.  `json.loads` keeps the last duplicate
key, so lookup prefers the last occurrence. -/
def objGet : List (String × Json) → String → Option Json
  | [], _ => none
  | (k', v) :: rest, k =>
    match objGet rest k with
    | some r => some r
    | none => if k' = k then some v else none

def containsKey (kvs : List (String × Json)) (k : String) : Bool :=
  (objGet kvs k).isSome

def asStr : Json → Option String
  | Json.jstr s => some s
  | _ => none

def asStrList : Json → Option (List String)
  | Json.jarr es => es.mapM asStr
  | _ => none

/-- Construction `AgentPlan(**data)`: `thought: str` and `plan: List[str]` are required. -/
def constructAgentPlan (kvs : List (String × Json)) : Except String AgentPlan :=
  match objGet kvs "thought" with
  | some (Json.jstr t) =>
    match objGet kvs "plan" with
    | some j =>
      match asStrList j with
      | some p => Except.ok ⟨t, p⟩
      | none => Except.error "validation error for AgentPlan"
    | none => Except.error "validation error for AgentPlan"
  | _ => Except.error "validation error for AgentPlan"

/-- One element of `tool_calls` validated as a `ToolCall` (`id: str` and
`tool_name: str` required, `parameters: Dict[str, Any]` defaulting to `{}`). -/
def constructToolCall (j : Json) : Option ToolCall :=
  match j with
  | Json.jobj kvs =>
    match objGet kvs "id", objGet kvs "tool_name" with
    | some (Json.jstr i), some (Json.jstr n) =>
      match objGet kvs "parameters" with
      | none => some ⟨i, n, []⟩
      | some (Json.jobj ps) => some ⟨i, n, ps⟩
      | some _ => none
    | _, _ => none
  | _ => none

/-- Construction `AgentStep(**data)`: `thought: str` and `tool_calls: List[ToolCall]`
are required. -/
def constructAgentStep (kvs : List (String × Json)) : Except String AgentStep :=
  match objGet kvs "thought" with
  | some (Json.jstr t) =>
    match objGet kvs "tool_calls" with
    | some (Json.jarr es) =>
      match es.mapM constructToolCall with
      | some tcs => Except.ok ⟨t, tcs⟩
      | none => Except.error "validation error for AgentStep"
    | _ => Except.error "validation error for AgentStep"
  | _ => Except.error "validation error for AgentStep"

/-- Construction `AgentFinalResponse(**data)`: `thought: Optional[str]` defaults to None,
`final_answer: str` is required. -/
def constructAgentFinalResponse (kvs : List (String × Json)) :
    Except String AgentFinalResponse :=
  let thoughtVal : Except String (Option String) :=
    match objGet kvs "thought" with
    | none => Except.ok none
    | some Json.jnull => Except.ok none
    | some (Json.jstr t) => Except.ok (some t)
    | some _ => Except.error "validation error for AgentFinalResponse"
  match thoughtVal with
  | Except.error m => Except.error m
  | Except.ok th =>
    match objGet kvs "final_answer" with
    | some (Json.jstr a) => Except.ok ⟨th, a⟩
    | _ => Except.error "validation error for AgentFinalResponse"

/-! ## Response classification (`ResponseParser.parse`) -/

/-- The three response variants `parse` can return. -/
inductive AgentResponseV where
  | plan : AgentPlan → AgentResponseV
  | step : AgentStep → AgentResponseV
  | final : AgentFinalResponse → AgentResponseV
deriving Repr

def AgentResponseV.isPlanV : AgentResponseV → Bool
  | AgentResponseV.plan _ => true
  | _ => false

def AgentResponseV.isStepV : AgentResponseV → Bool
  | AgentResponseV.step _ => true
  | _ => false

def AgentResponseV.isFinalV : AgentResponseV → Bool
  | AgentResponseV.final _ => true
  | _ => false

/-- Substring test, modelling Python `sub in hay` on strings. -/
def listContainsSub (sub : List Char) : List Char → Bool
  | [] => sub.isEmpty
  | c :: cs => sub.isPrefixOf (c :: cs) || listContainsSub sub cs

/-- Python `key in data` for a parsed JSON value: key lookup on a dict,
membership on a list, substring test on a string; `none` models the
`TypeError` raised on numbers/booleans/None. -/
def pyContains (data : Json) (k : String) : Option Bool :=
  match data with
  | Json.jobj kvs => some (containsKey kvs k)
  | Json.jarr es =>
    some (es.any fun e =>
      match e with
      | Json.jstr s => s = k
      | _ => false)
  | Json.jstr s => some (listContainsSub k.data s.data)
  | _ => none

/-- Python `len` on a parsed JSON value; `none` models `TypeError`. -/
def pyLen : Json → Option Nat
  | Json.jstr s => some s.length
  | Json.jarr es => some es.length
  | Json.jobj kvs => some kvs.length
  | _ => none

/-- The `except Exception` fallback of `parse`:
`AgentFinalResponse(final_answer=f"Error parsing response: {str(e)}")`. -/
def errFinal (msg : String) : AgentResponseV :=
  AgentResponseV.final ⟨none, "Error parsing response: " ++ msg⟩

/-- The `tool_calls` branch of `parse` (third `elif`) and its `else` fallback. -/
def classifyToolCalls (data : Json) (stripped : String) : AgentResponseV :=
  match pyContains data "tool_calls" with
  | none => errFinal "TypeError"
  | some true =>
    match data with
    | Json.jobj kvs =>
      match objGet kvs "tool_calls" with
      | some v =>
        match pyLen v with
        | none => errFinal "TypeError"
        | some n =>
          if n > 0 then
            match constructAgentStep kvs with
            | Except.ok s => AgentResponseV.step s
            | Except.error m => errFinal m
          else AgentResponseV.final ⟨none, stripped⟩
      | none => AgentResponseV.final ⟨none, stripped⟩
    | _ => errFinal "AttributeError"
  | some false => AgentResponseV.final ⟨none, stripped⟩

/-- Key-presence classification of `ResponseParser.parse` (steps 3 of the
source): `plan` first, then `final_answer` present and not None, then a
non-empty `tool_calls`, else the stripped raw text as a final answer.  A
model-construction failure in any branch is caught by `except Exception`
and becomes an error-text final response. -/
def classifyData (data : Json) (stripped : String) : AgentResponseV :=
  match pyContains data "plan" with
  | none => errFinal "TypeError"
  | some true =>
    match data with
    | Json.jobj kvs =>
      match constructAgentPlan kvs with
      | Except.ok p => AgentResponseV.plan p
      | Except.error m => errFinal m
    | _ => errFinal "TypeError"
  | some false =>
    match pyContains data "final_answer" with
    | none => errFinal "TypeError"
    | some true =>
      match data with
      | Json.jobj kvs =>
        match objGet kvs "final_answer" with
        | some Json.jnull => classifyToolCalls data stripped
        | some _ =>
          match constructAgentFinalResponse kvs with
          | Except.ok f => AgentResponseV.final f
          | Except.error m => errFinal m
        | none => classifyToolCalls data stripped
      | _ => errFinal "TypeError"
    | some false => classifyToolCalls data stripped

/-- Embedding of `ResponseParser.parse`: strip, extract the fenced JSON,
parse it, classify; a JSON decode failure falls back to the stripped raw
text as the final answer. -/
def responseParserParse (text : String) : AgentResponseV :=
  let t := pyStrip text
  let jsonText := extractJsonFromMarkdown t
  match jsonLoads jsonText with
  | none => AgentResponseV.final ⟨none, t⟩
  | some data => classifyData data t

example :
    responseParserParse "```json\n\x7b\"final_answer\": \"The answer is 42\"\x7d\n```"
      = AgentResponseV.final ⟨none, "The answer is 42"⟩ := by rfl

example :
    responseParserParse "plain text"
      = AgentResponseV.final ⟨none, "plain text"⟩ := by rfl

/-! ## Retry (`acton_agent/agent/retry.py`)

`RetryConfig.wrap_function` builds a tenacity retry wrapper:
`stop_after_attempt(max_attempts)`, `retry_if_exception_type`, `reraise=True`.
A fallible Python callable is embedded as `Nat → Except E A` — its outcome on
the n-th invocation (0-based), which also models stateful test doubles.  The
backoff waits are pure timing and have no observable effect here. -/

/-- One tenacity retry run starting at invocation index `i` with `fuel`
retries left after the current attempt; returns the outcome and the next
invocation index (so the invocation count when started at 0). -/
def retryAttempts {E A : Type} (retryable : E → Bool) (op : Nat → Except E A) :
    Nat → Nat → Except E A × Nat
  | i, 0 =>
    match op i with
    | Except.ok a => (Except.ok a, i + 1)
    | Except.error e => (Except.error e, i + 1)
  | i, fuel + 1 =>
    match op i with
    | Except.ok a => (Except.ok a, i + 1)
    | Except.error e =>
      if retryable e then retryAttempts retryable op (i + 1) fuel
      else (Except.error e, i + 1)

/-- Embedding of `RetryConfig`: only `max_attempts` is observable (`ge=1`); the wait
parameters govern sleep durations. -/
structure RetryConfigM where
  max_attempts : Nat
deriving Repr, DecidableEq

/-- Embedding of `RetryConfig.wrap_function` applied to an operation:
at most `max_attempts` invocations, retrying on exceptions matching
`retryable`, re-raising the last exception unchanged. -/
def wrapFunction {E A : Type} (cfg : RetryConfigM) (retryable : E → Bool)
    (op : Nat → Except E A) : Except E A × Nat :=
  retryAttempts retryable op 0 (cfg.max_attempts - 1)

/-! ## Tool dispatch (`Agent._execute_single_tool`, `Agent._execute_tool_calls`)

A registered tool's `execute` is embedded as `Nat → Except String String`
(attempt-indexed outcome; an exception is its message).  The registry is a
name-keyed partial map, as `ToolRegistry.get` returns `Tool | None`. -/

/-- Embedding of `Agent._execute_single_tool`: run the tool under the retry wrapper
(all exception types retryable); exhaustion wraps the exception into
`ToolExecutionError`, whose `str` is shown. -/
def executeSingleTool (cfg : RetryConfigM) (name : String)
    (ex : Nat → Except String String) : Except String String :=
  match wrapFunction cfg (fun _ => true) ex with
  | (Except.ok txt, _) => Except.ok txt
  | (Except.error e, _) =>
    Except.error ("Tool '" ++ name ++ "' execution failed: " ++ e)

/-- Python `str.startswith`. -/
def pyStartsWith (s pre : String) : Bool :=
  pre.data.isPrefixOf s.data

/-- The loop body of `Agent._execute_tool_calls` for one `ToolCall`:
unknown tool → "not found" error result; output starting with "Error" →
moved into `error` with `result` emptied; a `ToolExecutionError` → its
text as `error`. -/
def execOneToolCall (cfg : RetryConfigM)
    (reg : String → Option (Nat → Except String String)) (tc : ToolCall) :
    ToolResult :=
  match reg tc.tool_name with
  | none => ⟨tc.id, tc.tool_name, "", some ("Tool '" ++ tc.tool_name ++ "' not found")⟩
  | some ex =>
    match executeSingleTool cfg tc.tool_name ex with
    | Except.ok txt =>
      if pyStartsWith txt "Error" then ⟨tc.id, tc.tool_name, "", some txt⟩
      else ⟨tc.id, tc.tool_name, txt, none⟩
    | Except.error m => ⟨tc.id, tc.tool_name, "", some m⟩

/-- Embedding of `Agent._execute_tool_calls`: the `for tool_call in tool_calls` loop,
appending one result per call. -/
def executeToolCalls (cfg : RetryConfigM)
    (reg : String → Option (Nat → Except String String)) :
    List ToolCall → List ToolResult
  | [] => []
  | tc :: rest => execOneToolCall cfg reg tc :: executeToolCalls cfg reg rest

/-- One entry of `Agent._format_tool_results`. -/
def formatOneResult (r : ToolResult) : String :=
  "\n[" ++ r.tool_name ++ "] (ID: " ++ r.tool_call_id ++ ")\n" ++
    (if r.success then "Success: " ++ r.result ++ "\n"
     else "Error: " ++ r.error.getD "" ++ "\n")

/-- Embedding of `Agent._format_tool_results`. -/
def formatToolResults (rs : List ToolResult) : String :=
  "Tool Results:\n" ++ String.join (rs.map formatOneResult)

/-! ## The agent loop (`Agent.run_stream`, `Agent.run`) -/

inductive Role where
  | user | assistant | system
deriving Repr, DecidableEq

structure Message where
  role : Role
  content : String
deriving Repr, DecidableEq

/-- The LLM client collaborator.  `call` is indexed by the global invocation
count (modelling stateful doubles); `callStream` returns the chunks the
stream yields followed by an optional exception raised during iteration
(`hasCallStream = false` models a client without a `call_stream` method). -/
structure LLMClientM where
  call : Nat → List Message → Except String String
  hasCallStream : Bool
  callStream : Nat → List Message → List String × Option String

inductive AgentEvent where
  | streamStart : AgentEvent
  | token : String → AgentEvent
  | streamEnd : AgentEvent
  | planEvent : AgentPlan → AgentEvent
  | stepEvent : AgentStep → AgentEvent
  | toolResultsEvent : List ToolResult → AgentEvent
  | finalEvent : AgentFinalResponse → AgentEvent
deriving Repr

/-- An exception escaping `run_stream`: the `MaxIterationsError` raised after
the iteration budget, or a raw (uncaught) exception. -/
inductive RunExc where
  | maxIterations : Nat → RunExc
  | rawExc : String → RunExc
deriving Repr, DecidableEq

/-- The observable outcome of a `run_stream` call: the events yielded in
order, the exception (if any) raised after them, the total number of LLM
client invocations, and the conversation history left behind. -/
structure RunTrace where
  events : List AgentEvent
  exc : Option RunExc
  llmCalls : Nat
  history : List Message
deriving Repr

structure AgentCfg where
  max_iterations : Nat
  retry : RetryConfigM
  stream : Bool
deriving Repr

def llmErrAnswer (e : String) : String :=
  "Error: Failed to get response from LLM - " ++ e

def noStreamMsg : String :=
  "LLM client does not support streaming. Use stream=False or use a client with call_stream() method."

/-- Result of the LLM stage of one loop iteration: either complete response
text (with the stream events yielded on the way), or a halt (terminal
error event, or an escaping exception). -/
inductive LLMStageResult where
  | text : List AgentEvent → String → Nat → LLMStageResult
  | halt : List AgentEvent → Option RunExc → Nat → LLMStageResult

/-- The `try: ... except LLMCallError` block of one `run_stream` iteration.
Non-streaming: `_call_llm_with_retry`, whose exhaustion is caught and turned
into a terminal error `AgentFinalResponse`.  Streaming: the generator is not
retry-wrapped and only `LLMCallError` is caught, so an exception raised by
`call_stream` during iteration (or the `AttributeError` for a client without
`call_stream`) escapes uncaught. -/
def llmStage (cfg : AgentCfg) (client : LLMClientM) (msgs : List Message)
    (idx : Nat) : LLMStageResult :=
  if cfg.stream then
    if client.hasCallStream then
      let (chunks, excOpt) := client.callStream idx msgs
      match excOpt with
      | some m =>
        LLMStageResult.halt (AgentEvent.streamStart :: chunks.map AgentEvent.token)
          (some (RunExc.rawExc m)) (idx + 1)
      | none =>
        LLMStageResult.text
          (AgentEvent.streamStart :: chunks.map AgentEvent.token ++ [AgentEvent.streamEnd])
          (String.join chunks) (idx + 1)
    else
      LLMStageResult.halt [AgentEvent.streamStart]
        (some (RunExc.rawExc ("AttributeError: " ++ noStreamMsg))) idx
  else
    match retryAttempts (fun _ => true) (fun i => client.call i msgs) idx
        (cfg.retry.max_attempts - 1) with
    | (Except.ok t, idx') => LLMStageResult.text [] t idx'
    | (Except.error e, idx') =>
      LLMStageResult.halt [AgentEvent.finalEvent ⟨none, llmErrAnswer e⟩] none idx'

/-- The `for iteration in range(1, max_iterations + 1)` loop of `run_stream`,
by recursion on the remaining iterations; exhaustion raises
`MaxIterationsError(max_iterations)`.  The system message content (system
prompt, timestamp, tool listing) is the ambient `sysContent`. -/
def runLoop (cfg : AgentCfg) (client : LLMClientM)
    (reg : String → Option (Nat → Except String String)) (sysContent : String) :
    Nat → List Message → Nat → RunTrace
  | 0, hist, idx => ⟨[], some (RunExc.maxIterations cfg.max_iterations), idx, hist⟩
  | rem + 1, hist, idx =>
    let msgs := Message.mk Role.system sysContent :: hist
    match llmStage cfg client msgs idx with
    | LLMStageResult.halt evs exc idx' => ⟨evs, exc, idx', hist⟩
    | LLMStageResult.text evs textResp idx' =>
      let hist1 := hist ++ [Message.mk Role.assistant textResp]
      match responseParserParse textResp with
      | AgentResponseV.plan p =>
        let t := runLoop cfg client reg sysContent rem hist1 idx'
        ⟨evs ++ AgentEvent.planEvent p :: t.events, t.exc, t.llmCalls, t.history⟩
      | AgentResponseV.step s =>
        let results := executeToolCalls cfg.retry reg s.tool_calls
        let hist2 := hist1 ++ [Message.mk Role.user (formatToolResults results)]
        let t := runLoop cfg client reg sysContent rem hist2 idx'
        ⟨evs ++ AgentEvent.stepEvent s :: AgentEvent.toolResultsEvent results :: t.events,
          t.exc, t.llmCalls, t.history⟩
      | AgentResponseV.final f => ⟨evs ++ [AgentEvent.finalEvent f], none, idx', hist1⟩

/-- Embedding of `Agent.run_stream(user_input)` from a given prior conversation history:
append the user message and run the iteration loop. -/
def runStreamFrom (cfg : AgentCfg) (client : LLMClientM)
    (reg : String → Option (Nat → Except String String)) (sysContent : String)
    (hist0 : List Message) (userInput : String) : RunTrace :=
  runLoop cfg client reg sysContent cfg.max_iterations
    (hist0 ++ [Message.mk Role.user userInput]) 0

/-- Embedding of `Agent.run_stream` on a fresh agent (empty history). -/
def runStream (cfg : AgentCfg) (client : LLMClientM)
    (reg : String → Option (Nat → Except String String)) (sysContent : String)
    (userInput : String) : RunTrace :=
  runStreamFrom cfg client reg sysContent [] userInput

def firstFinalAnswer : List AgentEvent → Option String
  | [] => none
  | AgentEvent.finalEvent f :: _ => some f.final_answer
  | _ :: rest => firstFinalAnswer rest

/-- Embedding of `Agent.run(user_input)`: consume `run_stream` until the first final
response event; an exception raised by the generator before one propagates;
a missing final answer raises the defensive `MaxIterationsError`. -/
def runAgent (cfg : AgentCfg) (client : LLMClientM)
    (reg : String → Option (Nat → Except String String)) (sysContent : String)
    (userInput : String) : Except RunExc String :=
  let t := runStream cfg client reg sysContent userInput
  match firstFinalAnswer t.events with
  | some a => Except.ok a
  | none =>
    match t.exc with
    | some e => Except.error e
    | none => Except.error (RunExc.maxIterations cfg.max_iterations)

/-! ## Partial JSON recovery (`agent_stream.parse_partial_json`)

`jiter` is an optional external dependency (guarded by a try/import); the
embedding follows the module's own recovery logic (the `ImportError`
fallback).  Both paths sit inside `try/except`, so the no-raise behaviour is
identical, and both return a value of the same top-level JSON kind. -/

def isHexDigit (c : Char) : Bool := (hexVal c).isSome

/-- Python `str.endswith` over character lists. -/
def listEndsWith (suf cs : List Char) : Bool :=
  suf.reverse.isPrefixOf cs.reverse

/-- Does the character list start with the given character? -/
def headIs (cs : List Char) (c : Char) : Bool :=
  match cs with
  | c' :: _ => c' = c
  | [] => false

/-- Length of the match of `\\u[0-9a-fA-F]{0,3}$` (0 when there is none):
the text ends in `\u` followed by at most three hex digits. -/
def trailingUniEscape (cs : List Char) : Nat :=
  let r := cs.reverse
  let k := (r.takeWhile isHexDigit).length
  if k ≤ 3 then
    match r.drop k with
    | 'u' :: '\\' :: _ => k + 2
    | _ => 0
  else 0

/-- The trailing-artifact trim at the top of `parse_partial_json`: an
unescaped final quote, a lone final backslash, or a truncated unicode
escape. -/
def ppjTrim (cs : List Char) : List Char :=
  if listEndsWith ['"'] cs ∧ ¬listEndsWith ['\\', '"'] cs ∧ ¬listEndsWith [':', '"'] cs then
    cs.dropLast
  else if listEndsWith ['\\'] cs ∧ ¬listEndsWith ['\\', '\\'] cs then cs.dropLast
  else cs.take (cs.length - trailingUniEscape cs)

/-- The closing-bracket repair of `parse_partial_json`: if the stripped text
opens an object (or array), append the missing closers, counted naively over
the whole text. -/
def ppjClose (cs1 : List Char) : List Char :=
  if headIs (pyStripList cs1) '{' then
    if cs1.count '{' > cs1.count '}' then
      cs1 ++ List.replicate (cs1.count '{' - cs1.count '}') '}'
    else cs1
  else if headIs (pyStripList cs1) '[' then
    if cs1.count '[' > cs1.count ']' then
      cs1 ++ List.replicate (cs1.count '[' - cs1.count ']') ']'
    else cs1
  else cs1

/-- The parse-and-recover tail of `parse_partial_json`: strict parse, then
closing-bracket repair and re-parse, then the `{}` fallback. -/
def ppjRecover (cs1 : List Char) : Json :=
  match jsonLoadsL cs1 with
  | some v => v
  | none =>
    match jsonLoadsL (ppjClose cs1) with
    | some v => v
    | none => Json.jobj []

/-- Embedding of `parse_partial_json`: trim the trailing artifact, try a
strict parse, on failure append the missing `}`/`]` closers (counted naively
over the whole text) and retry; any remaining failure returns the empty
object.  Total, so the Python function's never-raises contract is
inherent. -/
def parsePartialJson (s : String) : Json :=
  if (pyStripList s.data).isEmpty then Json.jobj []
  else ppjRecover (ppjTrim s.data)

example : parsePartialJson "\x7b\"a\": 1" = Json.jobj [("a", Json.jnum "1")] := by rfl

example : parsePartialJson "" = Json.jobj [] := by rfl

example : parsePartialJson "4" = Json.jnum "4" := by rfl

/-! ## Streaming token accumulation (`streaming_parser.StreamingTokenParser`)

The per-step byte buffers are modelled as strings.  The typed event models
this module constructs live in a newer `models.py` generation than the one in
the snapshot (the import of `AgentToolExecutionEvent` does not even resolve
against it), so event construction is a parameter: each `mk…` returns
`Option`, `none` standing for a pydantic `ValidationError` — which the
source swallows inside its `try/except`. -/

inductive EventTypeM where
  | planT | stepT | finalT | unknownT
deriving Repr, DecidableEq

def assocFind {α : Type} : List (String × α) → String → Option α
  | [], _ => none
  | (k', v) :: rest, k => if k' = k then some v else assocFind rest k

def assocSet {α : Type} : List (String × α) → String → α → List (String × α)
  | [], k, v => [(k, v)]
  | (k', v') :: rest, k, v =>
    if k' = k then (k, v) :: rest else (k', v') :: assocSet rest k v

structure STPState where
  stepBuffers : List (String × String)
  detectedTypes : List (String × EventTypeM)
deriving Repr

def STPState.empty : STPState := ⟨[], []⟩

/-- Embedding of `add_token`: append to (or create) the step's buffer. -/
def stpAddToken (st : STPState) (sid token : String) : STPState :=
  let cur := (assocFind st.stepBuffers sid).getD ""
  { st with stepBuffers := assocSet st.stepBuffers sid (cur ++ token) }

/-- Embedding of `get_buffer`: the accumulated buffer, `""` when absent. -/
def stpGetBuffer (st : STPState) (sid : String) : String :=
  (assocFind st.stepBuffers sid).getD ""

/-- Embedding of `clear_buffer`: drop the buffer and the locked-in detected type. -/
def stpClearBuffer (st : STPState) (sid : String) : STPState :=
  ⟨st.stepBuffers.filter (fun p => p.1 ≠ sid),
   st.detectedTypes.filter (fun p => p.1 ≠ sid)⟩

/-- The whitespace set `_extract_json_from_markdown` skips after the opening
fence (space, LF, CR, tab). -/
def isFenceWs (c : Char) : Bool :=
  c = ' ' || c = '\n' || c = '\r' || c = '\t'

/-- The text before the first occurrence of ```` ``` ````, if any
(`bytes.find(MARKDOWN_END, start)`). -/
def splitAtFence (acc : List Char) : List Char → Option (List Char)
  | [] => none
  | c :: cs =>
    if fenceChars.isPrefixOf (c :: cs) then some acc.reverse
    else splitAtFence (c :: acc) cs

/-- Embedding of `StreamingTokenParser._extract_json_from_markdown` (the byte-level,
procedural variant): strip; if no leading fence return as is; otherwise skip
the fence, an optional `json` tag and whitespace, and return what precedes
the closing fence (everything, when it has not arrived yet). -/
def stpExtract (cs : List Char) : List Char :=
  let data := pyStripList cs
  if fenceChars.isPrefixOf data then
    let rest0 :=
      if (fenceChars ++ jsonTag).isPrefixOf data then data.drop 7 else data.drop 3
    let rest1 := rest0.dropWhile isFenceWs
    match splitAtFence [] rest1 with
    | some inner => pyStripList inner
    | none => pyStripList rest1
  else data

/-- One step of the byte-counting pass of `_complete_partial_json`:
state `(escapeNext, openBraces, openBrackets, quoteCount, hasColon,
endsWithColon)`. -/
def stpCountStep (st : Bool × Int × Int × Nat × Bool × Bool) (c : Char)
    (isLast : Bool) : Bool × Int × Int × Nat × Bool × Bool :=
  let (escapeNext, ob, obk, qc, hc, ewc) := st
  if escapeNext then (false, ob, obk, qc, hc, ewc)
  else if c = '\\' then (true, ob, obk, qc, hc, ewc)
  else if c = '"' then (false, ob, obk, qc + 1, hc, ewc)
  else if c = '{' then (false, ob + 1, obk, qc, hc, ewc)
  else if c = '}' then (false, ob - 1, obk, qc, hc, ewc)
  else if c = '[' then (false, ob, obk + 1, qc, hc, ewc)
  else if c = ']' then (false, ob, obk - 1, qc, hc, ewc)
  else if c = ':' then (false, ob, obk, qc, true, isLast)
  else (false, ob, obk, qc, hc, ewc)

def stpCountLoop (st : Bool × Int × Int × Nat × Bool × Bool) :
    List Char → Bool × Int × Int × Nat × Bool × Bool
  | [] => st
  | c :: cs => stpCountLoop (stpCountStep st c cs.isEmpty) cs

/-- Embedding of `StreamingTokenParser._complete_partial_json`: strip; `{}` for empty or a
lone `{`; one counting pass; then append `:"" ` for a quoted fragment with no
colon, `""` after a trailing colon, a closing quote for an odd quote count,
and the missing `]`/`}` closers. -/
def stpCompletePartialJson (cs : List Char) : List Char :=
  if cs.isEmpty then ['{', '}']
  else
    let b := pyStripList cs
    if b = ['{'] then ['{', '}']
    else
      let (_, ob, obk, qc, hc, ewc) := stpCountLoop (false, 0, 0, 0, false, false) b
      let suffix1 : List Char :=
        if ¬hc ∧ qc > 0 then [':', '"', '"', ' ']
        else if ewc then ['"', '"']
        else []
      let suffix2 := suffix1 ++ (if qc % 2 = 1 then ['"'] else [])
      let suffix3 := suffix2 ++ List.replicate obk.toNat ']'
      let suffix4 := suffix3 ++ List.replicate ob.toNat '}'
      b ++ suffix4

/-- Embedding of `_detect_event_type_from_partial`. -/
def stpDetect (kvs : List (String × Json)) : EventTypeM :=
  if containsKey kvs "plan" then EventTypeM.planT
  else if containsKey kvs "tool_calls" || containsKey kvs "tool_thought" then EventTypeM.stepT
  else if containsKey kvs "final_answer" then EventTypeM.finalT
  else EventTypeM.unknownT

def joinCommaSep : List String → String
  | [] => ""
  | [x] => x
  | x :: xs => x ++ ", " ++ joinCommaSep xs

/-- Python `repr` of a parsed-JSON value (as used by `str()` on non-strings);
the fuel bounds recursion depth and exceeds the depth of any parsed value at
the call sites.  String escaping inside `repr` is not reproduced. -/
def pyReprFuel : Nat → Json → String
  | _, Json.jnull => "None"
  | _, Json.jbool true => "True"
  | _, Json.jbool false => "False"
  | _, Json.jnum s => s
  | _, Json.jstr s => "'" ++ s ++ "'"
  | 0, _ => ""
  | fuel + 1, Json.jarr es => "[" ++ joinCommaSep (es.map (pyReprFuel fuel)) ++ "]"
  | fuel + 1, Json.jobj kvs =>
    "\x7b" ++
      joinCommaSep (kvs.map fun p => "'" ++ p.1 ++ "': " ++ pyReprFuel fuel p.2) ++
      "\x7d"

/-- Python `str()` of a parsed-JSON value. -/
def pyStrFuel (fuel : Nat) (j : Json) : String :=
  match j with
  | Json.jstr s => s
  | _ => pyReprFuel fuel j

/-- Is a JSON number lexeme the value zero (its mantissa has no nonzero
digit)? -/
def numIsZero (s : String) : Bool :=
  (s.data.takeWhile fun c => c ≠ 'e' ∧ c ≠ 'E').all fun c => ¬('1' ≤ c ∧ c ≤ '9')

/-- Python truthiness of a parsed-JSON value. -/
def pyTruthy : Json → Bool
  | Json.jnull => false
  | Json.jbool b => b
  | Json.jnum s => !numIsZero s
  | Json.jstr s => !s.data.isEmpty
  | Json.jarr es => !es.isEmpty
  | Json.jobj kvs => !kvs.isEmpty

/-- The `for tc in tool_calls_data` loop of `try_parse_partial`: elements
that are not dicts or lack `id`/`tool_name` are skipped; an element passing
that check but failing `ToolCall` validation raises, which the outer
`except` turns into an overall `None` — modelled as this returning `none`. -/
def stpCollectToolCalls : List Json → Option (List ToolCall)
  | [] => some []
  | tc :: rest =>
    match tc with
    | Json.jobj kvs =>
      if containsKey kvs "id" ∧ containsKey kvs "tool_name" then
        match constructToolCall (Json.jobj kvs) with
        | some t => (stpCollectToolCalls rest).map (t :: ·)
        | none => none
      else stpCollectToolCalls rest
    | _ => stpCollectToolCalls rest

/-- Event constructors for `try_parse_partial`, abstracting the typed event
models of the newer `models.py` generation this module was written against
(the snapshot's models do not resolve its imports).  Each returns `Option`:
`none` models a pydantic `ValidationError` during construction.
`mkPlan` takes the step id, `plan_str` and the `complete` flag; `mkStep`
takes the step id, the raw `tool_thought` value, the collected tool calls
and `complete`; `mkFinal` takes the step id, the raw `thought` value, the
`final_answer` value and `complete`. -/
structure STPCons (Ev : Type) where
  mkPlan : String → String → Bool → Option Ev
  mkStep : String → Option Json → List ToolCall → Bool → Option Ev
  mkFinal : String → Option Json → Json → Bool → Option Ev

/-- Embedding of `StreamingTokenParser.try_parse_partial`: empty/absent
buffer → `None`; extract and complete the partial JSON; a parse failure or
non-dict result → `None`; otherwise classify under the locked-in early
detection (recording a new detection in the state) and build the branch's
event, every construction failure again returning `None`.  The function is
total: the Python `try/except Exception` wall is the `Option` result. -/
def tryParsePartial {Ev : Type} (C : STPCons Ev) (st : STPState) (sid : String) :
    Option Ev × STPState :=
  let buffer := stpGetBuffer st sid
  if buffer.data.isEmpty then (none, st)
  else
    let completed := stpCompletePartialJson (stpExtract buffer.data)
    match jsonLoadsL completed with
    | none => (none, st)
    | some data =>
      match data with
      | Json.jobj kvs =>
        let (detected, st') :=
          match assocFind st.detectedTypes sid with
          | some dt => (dt, st)
          | none =>
            let dt := stpDetect kvs
            if dt ≠ EventTypeM.unknownT then
              (dt, { st with detectedTypes := assocSet st.detectedTypes sid dt })
            else (dt, st)
        if detected = EventTypeM.planT ∧ containsKey kvs "plan" then
          let pv := (objGet kvs "plan").getD Json.jnull
          let planStr := if pyTruthy pv then pyStrFuel (completed.length + 1) pv else ""
          (C.mkPlan sid planStr (!(pyStripList planStr.data).isEmpty), st')
        else if detected = EventTypeM.stepT ∧
            (containsKey kvs "tool_thought" ∨ containsKey kvs "tool_calls") then
          let tcs :=
            match objGet kvs "tool_calls" with
            | some (Json.jarr es) => stpCollectToolCalls es
            | _ => some []
          match tcs with
          | none => (none, st')
          | some ts => (C.mkStep sid (objGet kvs "tool_thought") ts (!ts.isEmpty), st')
        else if detected = EventTypeM.finalT ∧
            (containsKey kvs "thought" ∨ containsKey kvs "final_answer") then
          let fa := (objGet kvs "final_answer").getD (Json.jstr "")
          (C.mkFinal sid (objGet kvs "thought") fa (pyTruthy fa), st')
        else (none, st')
      | _ => (none, st)

/-! ## Conversation history aliasing (`Agent.get_conversation_history`)

Python list identity is modelled by a store of lists indexed by references.
`get_conversation_history` returns `self.conversation_history.copy()` —
a freshly allocated list, here a fresh reference holding the same
contents — and `reset` rebinds the attribute to a new empty list. -/

structure AgentHistState where
  store : List (List Message)
  historyRef : Nat
deriving Repr

def readRef (s : AgentHistState) (r : Nat) : List Message :=
  s.store.getD r []

/-- Mutate the list behind reference `r` in place (append / remove /
reorder are instances of `f`). -/
def mutateRef (s : AgentHistState) (r : Nat) (f : List Message → List Message) :
    AgentHistState :=
  { s with store := s.store.set r (f (readRef s r)) }

/-- Embedding of `get_conversation_history`: allocate a fresh list with copied contents
and return its reference. -/
def getConversationHistory (s : AgentHistState) : AgentHistState × Nat :=
  (⟨s.store ++ [readRef s s.historyRef], s.historyRef⟩, s.store.length)

/-- Embedding of `reset`: rebind `conversation_history` to a fresh empty list. -/
def resetAgent (s : AgentHistState) : AgentHistState :=
  ⟨s.store ++ [[]], s.store.length⟩

/-! ## Concrete fixtures used by witnesses and counterexamples -/

/-- Discriminator: is the value a JSON object or array? -/
def Json.isObjOrArr : Json → Bool
  | Json.jobj _ => true
  | Json.jarr _ => true
  | _ => false

/-- Is an optional parse result an object or array value? -/
def jsonKindOk : Option Json → Bool
  | some j => j.isObjOrArr
  | none => false

/-- A model response carrying a tool call whose id is not a UUID, shaped as
the repository's parser tests shape their inputs. -/
def c1FailingInput : String :=
  "```json\n\x7b\"thought\": \"t\", \"tool_calls\": [\x7b\"id\": \"invalid-id\", \"tool_name\": \"calculator\", \"parameters\": \x7b\"a\": 5, \"b\": 3\x7d\x7d]\x7d\n```"

/-- JSON object with an empty `final_answer` alongside a non-empty
`tool_calls` list. -/
def c2InputEmptyAnswer : String :=
  "\x7b\"thought\": \"t\", \"final_answer\": \"\", \"tool_calls\": [\x7b\"id\": \"i\", \"tool_name\": \"n\"\x7d]\x7d"

/-- JSON object with a `plan` key whose `AgentPlan` construction fails
(`thought` is required but missing). -/
def c2InputBadPlan : String := "\x7b\"plan\": [\"a\"]\x7d"

/-- A fenced plan response that constructs successfully. -/
def c2InputGoodPlan : String :=
  "```json\n\x7b\"plan\": [\"a\"], \"thought\": \"think\"\x7d\n```"

/-- A registry knowing only the tool `known`, which echoes `ok`. -/
def c3Reg : String → Option (Nat → Except String String) :=
  fun n => if n = "known" then some (fun _ => Except.ok "ok") else none

def c3Calls : List ToolCall :=
  [⟨"a", "known", []⟩, ⟨"b", "missing", []⟩]

/-- A streaming client whose stream raises immediately. -/
def c4StreamClient : LLMClientM :=
  ⟨fun _ _ => Except.error "boom", true, fun _ _ => ([], some "boom")⟩

def c4StreamCfg : AgentCfg := ⟨2, ⟨3⟩, true⟩

/-- A non-streaming client that always fails. -/
def c4FailClient : LLMClientM :=
  ⟨fun _ _ => Except.error "down", false, fun _ _ => ([], none)⟩

def c4PlainCfg : AgentCfg := ⟨5, ⟨3⟩, false⟩

def emptyReg : String → Option (Nat → Except String String) := fun _ => none

/-- A tool-calling step response, fenced as the model would emit it. -/
def c5StepText : String :=
  "```json\n\x7b\"thought\": \"more\", \"tool_calls\": [\x7b\"id\": \"call_1\", \"tool_name\": \"calculator\", \"parameters\": \x7b\x7d\x7d]\x7d\n```"

/-- A client that answers every call (plain or streamed) with the step
response above. -/
def c5StepClient : LLMClientM :=
  ⟨fun _ _ => Except.ok c5StepText, true, fun _ _ => ([c5StepText], none)⟩

def c5Cfg : AgentCfg := ⟨3, ⟨3⟩, false⟩

/-- A tool that reports a content-level error. -/
def c6Reg : String → Option (Nat → Except String String) :=
  fun n => if n = "calc" then some (fun _ => Except.ok "Error: X") else none

def c6Call : ToolCall := ⟨"id1", "calc", []⟩

/-- Fails twice with a retryable error, then succeeds. -/
def c8FlakyOp : Nat → Except String String :=
  fun i => if i < 2 then Except.error "tmp" else Except.ok "ok"

/-- Always fails with a retryable error. -/
def c8FailOp : Nat → Except String String := fun _ => Except.error "boom"

def c8Retryable : String → Bool := fun _ => true

def c8FailMsg : Nat → String := fun _ => "boom"

/-- Constructors that always fail validation. -/
def c10FailCons : STPCons Unit :=
  ⟨fun _ _ _ => none, fun _ _ _ _ => none, fun _ _ _ _ => none⟩

/-- A buffer whose completion is still not valid JSON. -/
def c10BadState : STPState := ⟨[("s", "]")], []⟩

/-! ## Helper lemmas -/

theorem executeToolCalls_eq_map (cfg : RetryConfigM)
    (reg : String → Option (Nat → Except String String)) (tcs : List ToolCall) :
    executeToolCalls cfg reg tcs = tcs.map (execOneToolCall cfg reg) := by
  induction tcs with
  | nil => rfl
  | cons tc rest ih => simp [executeToolCalls, ih]

/-! ## Claim theorems -/

/-- C8: with `max_attempts = 3`, wrapping a function that raises a retryable
exception twice and then returns a value invokes it exactly 3 times and
returns the value; wrapping a function that always raises invokes it exactly
3 times and re-raises the last exception unchanged. -/
theorem c8_retry_three_attempts {E A : Type} (retryable : E → Bool)
    (op1 op2 : Nat → Except E A) (e0 e1 : E) (a : A) (err : Nat → E)
    (h0 : op1 0 = Except.error e0) (h1 : op1 1 = Except.error e1)
    (h2 : op1 2 = Except.ok a)
    (r0 : retryable e0 = true) (r1 : retryable e1 = true)
    (hAll : ∀ i, op2 i = Except.error (err i))
    (rAll : ∀ i, retryable (err i) = true) :
    wrapFunction ⟨3⟩ retryable op1 = (Except.ok a, 3) ∧
      wrapFunction ⟨3⟩ retryable op2 = (Except.error (err 2), 3) := by
  constructor
  · show retryAttempts retryable op1 0 2 = (Except.ok a, 3)
    simp [retryAttempts, h0, r0, h1, r1, h2]
  · show retryAttempts retryable op2 0 2 = (Except.error (err 2), 3)
    simp [retryAttempts, hAll 0, rAll 0, hAll 1, rAll 1, hAll 2, rAll 2]

/-- Witness for C8 at concrete operations. -/
theorem c8_retry_three_attempts_witness :
    wrapFunction ⟨3⟩ c8Retryable c8FlakyOp = (Except.ok "ok", 3) ∧
      wrapFunction ⟨3⟩ c8Retryable c8FailOp = (Except.error "boom", 3) :=
  c8_retry_three_attempts c8Retryable c8FlakyOp c8FailOp "tmp" "tmp" "ok" c8FailMsg
    rfl rfl rfl rfl rfl (fun _ => rfl) (fun _ => rfl)

/-- C6: a dispatched tool call whose execution succeeds with output starting
with "Error" yields a result whose `error` is the entire output, whose
`result` is empty, and which counts as a failure. -/
theorem c6_error_text_output (cfg : RetryConfigM)
    (reg : String → Option (Nat → Except String String)) (tc : ToolCall)
    (ex : Nat → Except String String) (out : String)
    (hreg : reg tc.tool_name = some ex)
    (hexec : executeSingleTool cfg tc.tool_name ex = Except.ok out)
    (herr : pyStartsWith out "Error" = true) :
    execOneToolCall cfg reg tc = ⟨tc.id, tc.tool_name, "", some out⟩ ∧
      (execOneToolCall cfg reg tc).success = false := by
  have h : execOneToolCall cfg reg tc = ⟨tc.id, tc.tool_name, "", some out⟩ := by
    simp [execOneToolCall, hreg, hexec, herr]
  exact ⟨h, by rw [h]; rfl⟩

/-- Witness for C6: output exactly "Error: X". -/
theorem c6_error_text_output_witness :
    execOneToolCall ⟨3⟩ c6Reg c6Call = ⟨"id1", "calc", "", some "Error: X"⟩ ∧
      (execOneToolCall ⟨3⟩ c6Reg c6Call).success = false :=
  c6_error_text_output ⟨3⟩ c6Reg c6Call (fun _ => Except.ok "Error: X") "Error: X"
    rfl rfl rfl

/-- C3: dispatching N tool calls yields exactly N results in input order;
the k-th result is a function of the k-th call alone (one call's failure
never prevents the others), and an unregistered k-th tool produces the
"Tool '<name>' not found" error result. -/
theorem c3_dispatch_isolation (cfg : RetryConfigM)
    (reg : String → Option (Nat → Except String String)) (tcs : List ToolCall)
    (k : Nat) (hk : k < tcs.length) :
    (executeToolCalls cfg reg tcs).length = tcs.length ∧
      (executeToolCalls cfg reg tcs)[k]? =
        some (execOneToolCall cfg reg (tcs.get ⟨k, hk⟩)) ∧
      (reg (tcs.get ⟨k, hk⟩).tool_name = none →
        (executeToolCalls cfg reg tcs)[k]? =
          some ⟨(tcs.get ⟨k, hk⟩).id, (tcs.get ⟨k, hk⟩).tool_name, "",
            some ("Tool '" ++ (tcs.get ⟨k, hk⟩).tool_name ++ "' not found")⟩) := by
  rw [executeToolCalls_eq_map]
  refine ⟨by simp, ?_, ?_⟩
  · simp [List.getElem?_map, List.getElem?_eq_getElem hk]
  · intro hmiss
    simp only [List.get_eq_getElem] at hmiss
    simp [List.getElem?_map, List.getElem?_eq_getElem hk, execOneToolCall, hmiss]

/-- Witness for C3: two calls, the second to an unregistered tool. -/
theorem c3_dispatch_isolation_witness :
    (executeToolCalls ⟨3⟩ c3Reg c3Calls).length = 2 ∧
      (executeToolCalls ⟨3⟩ c3Reg c3Calls)[0]? = some ⟨"a", "known", "ok", none⟩ ∧
      (executeToolCalls ⟨3⟩ c3Reg c3Calls)[1]? =
        some ⟨"b", "missing", "", some "Tool 'missing' not found"⟩ := by
  refine ⟨(c3_dispatch_isolation ⟨3⟩ c3Reg c3Calls 0 (by decide)).1, ?_, ?_⟩
  · have h := (c3_dispatch_isolation ⟨3⟩ c3Reg c3Calls 0 (by decide)).2.1
    exact h
  · have h := (c3_dispatch_isolation ⟨3⟩ c3Reg c3Calls 1 (by decide)).2.2 rfl
    exact h

/-- C1 (code evaluation at the failing input): `ResponseParser.parse`
passes a tool call's `id` through unchanged — the non-UUID id
`"invalid-id"` survives byte-for-byte, and no fresh UUID is generated,
contradicting the spec and the repository's own parser tests. -/
theorem c1_invalid_id_preserved :
    responseParserParse c1FailingInput =
      AgentResponseV.step
        ⟨"t", [⟨"invalid-id", "calculator",
          [("a", Json.jnum "5"), ("b", Json.jnum "3")]⟩]⟩ := by
  rfl

/-- C2 counterexample: (i) for raw text with trailing whitespace the
fallback final answer is the *stripped* text, not the exact input;
(ii) a present-but-empty `final_answer` wins over a non-empty `tool_calls`
list (the code only excludes None); (iii) a `plan` object whose model
construction fails does not produce an `AgentPlan`. -/
theorem c2_counterexample :
    responseParserParse "hi " = AgentResponseV.final ⟨none, "hi"⟩ ∧
      "hi" ≠ "hi " ∧
      responseParserParse c2InputEmptyAnswer = AgentResponseV.final ⟨some "t", ""⟩ ∧
      (responseParserParse c2InputBadPlan).isPlanV = false := by
  refine ⟨by rfl, by decide, by rfl, by rfl⟩

/-- C2 amended: `parse` classifies a successfully parsed JSON object by key
presence with precedence `plan`, then `final_answer` present and non-null
(empty string included), then a non-empty `tool_calls` list; each branch
yields its model when construction succeeds and an error-text final response
when it fails; with no matching key, or unparseable text, the final answer
is the *stripped* original input. -/
theorem c2_classification_amended (text : String) :
    (jsonLoads (extractJsonFromMarkdown (pyStrip text)) = none →
      responseParserParse text = AgentResponseV.final ⟨none, pyStrip text⟩) ∧
    ∀ kvs, jsonLoads (extractJsonFromMarkdown (pyStrip text)) = some (Json.jobj kvs) →
      (containsKey kvs "plan" = true →
        responseParserParse text =
          match constructAgentPlan kvs with
          | Except.ok p => AgentResponseV.plan p
          | Except.error m => errFinal m) ∧
      (containsKey kvs "plan" = false →
        ∀ v, objGet kvs "final_answer" = some v → v ≠ Json.jnull →
          responseParserParse text =
            match constructAgentFinalResponse kvs with
            | Except.ok f => AgentResponseV.final f
            | Except.error m => errFinal m) ∧
      (containsKey kvs "plan" = false →
        (objGet kvs "final_answer" = none ∨ objGet kvs "final_answer" = some Json.jnull) →
        ∀ es, objGet kvs "tool_calls" = some (Json.jarr es) → es ≠ [] →
          responseParserParse text =
            match constructAgentStep kvs with
            | Except.ok s => AgentResponseV.step s
            | Except.error m => errFinal m) ∧
      (containsKey kvs "plan" = false → containsKey kvs "final_answer" = false →
        containsKey kvs "tool_calls" = false →
        responseParserParse text = AgentResponseV.final ⟨none, pyStrip text⟩) := by
  constructor
  · intro h
    simp only [responseParserParse, h]
  · intro kvs h
    have hbase : responseParserParse text = classifyData (Json.jobj kvs) (pyStrip text) := by
      simp only [responseParserParse, h]
    refine ⟨?_, ?_, ?_, ?_⟩
    · intro hp
      rw [hbase]
      cases hcp : constructAgentPlan kvs <;>
        simp [classifyData, pyContains, hp, hcp, errFinal]
    · intro hp v hv hnn
      have hfk : containsKey kvs "final_answer" = true := by
        simp [containsKey, hv]
      rw [hbase]
      cases v with
      | jnull => exact absurd rfl hnn
      | jbool b =>
        cases hcf : constructAgentFinalResponse kvs <;>
          simp [classifyData, pyContains, hp, hfk, hv, hcf, errFinal]
      | jnum s =>
        cases hcf : constructAgentFinalResponse kvs <;>
          simp [classifyData, pyContains, hp, hfk, hv, hcf, errFinal]
      | jstr s =>
        cases hcf : constructAgentFinalResponse kvs <;>
          simp [classifyData, pyContains, hp, hfk, hv, hcf, errFinal]
      | jarr es =>
        cases hcf : constructAgentFinalResponse kvs <;>
          simp [classifyData, pyContains, hp, hfk, hv, hcf, errFinal]
      | jobj ms =>
        cases hcf : constructAgentFinalResponse kvs <;>
          simp [classifyData, pyContains, hp, hfk, hv, hcf, errFinal]
    · intro hp hfa es hes hne
      have htk : containsKey kvs "tool_calls" = true := by
        simp [containsKey, hes]
      have hlen : 0 < es.length := List.length_pos.mpr hne
      rw [hbase]
      cases hfa with
      | inl hnone =>
        have hfk : containsKey kvs "final_answer" = false := by
          simp [containsKey, hnone]
        cases hcs : constructAgentStep kvs <;>
          simp [classifyData, classifyToolCalls, pyContains, pyLen, hp, hfk, htk,
            hes, hlen, hcs, errFinal]
      | inr hnull =>
        have hfk : containsKey kvs "final_answer" = true := by
          simp [containsKey, hnull]
        cases hcs : constructAgentStep kvs <;>
          simp [classifyData, classifyToolCalls, pyContains, pyLen, hp, hfk, hnull,
            htk, hes, hlen, hcs, errFinal]
    · intro hp hfk htk
      rw [hbase]
      simp [classifyData, classifyToolCalls, pyContains, hp, hfk, htk]

/-- Witness for the amended C2: the stripped-fallback branch and a
successful plan classification. -/
theorem c2_classification_amended_witness :
    responseParserParse "x " = AgentResponseV.final ⟨none, "x"⟩ ∧
      responseParserParse c2InputGoodPlan = AgentResponseV.plan ⟨"think", ["a"]⟩ := by
  constructor
  · exact (c2_classification_amended "x ").1 rfl
  · exact ((c2_classification_amended c2InputGoodPlan).2
      [("plan", Json.jarr [Json.jstr "a"]), ("thought", Json.jstr "think")] rfl).1 rfl

theorem runLoop_history_extends (cfg : AgentCfg) (client : LLMClientM)
    (reg : String → Option (Nat → Except String String)) (sys : String) :
    ∀ rem hist idx, ∃ tail,
      (runLoop cfg client reg sys rem hist idx).history = hist ++ tail := by
  intro rem
  induction rem with
  | zero => exact fun hist idx => ⟨[], by simp [runLoop]⟩
  | succ n ih =>
    intro hist idx
    cases hls : llmStage cfg client (Message.mk Role.system sys :: hist) idx with
    | halt evs exc idx2 => exact ⟨[], by simp [runLoop, hls]⟩
    | text evs resp idx2 =>
      cases hresp : responseParserParse resp with
      | plan p =>
        obtain ⟨t, ht⟩ := ih (hist ++ [Message.mk Role.assistant resp]) idx2
        exact ⟨Message.mk Role.assistant resp :: t, by
          simp [runLoop, hls, hresp, ht]⟩
      | step s =>
        obtain ⟨t, ht⟩ := ih
          (hist ++ [Message.mk Role.assistant resp,
            Message.mk Role.user (formatToolResults (executeToolCalls cfg.retry reg s.tool_calls))]) idx2
        exact ⟨Message.mk Role.assistant resp ::
            Message.mk Role.user (formatToolResults (executeToolCalls cfg.retry reg s.tool_calls)) :: t, by
          simp [runLoop, hls, hresp, ht, List.append_assoc]⟩
      | final f =>
        exact ⟨[Message.mk Role.assistant resp], by simp [runLoop, hls, hresp]⟩

/-- C9: `get_conversation_history` hands back a fresh copy — mutating the
returned list in any way (append, remove, reorder) leaves the agent's
internal history untouched; the getter itself does not modify it, `reset`
leaves a fresh empty history, and a run only ever appends to the existing
history. -/
theorem c9_history_copy_isolated (s : AgentHistState)
    (h : s.historyRef < s.store.length) (f : List Message → List Message) :
    readRef (mutateRef (getConversationHistory s).1 (getConversationHistory s).2 f)
        s.historyRef = readRef s s.historyRef ∧
      (getConversationHistory s).2 ≠ s.historyRef ∧
      readRef (getConversationHistory s).1 s.historyRef = readRef s s.historyRef ∧
      readRef (resetAgent s) (resetAgent s).historyRef = [] ∧
      ∀ cfg client reg sys input, ∃ tail,
        (runStreamFrom cfg client reg sys (readRef s s.historyRef) input).history =
          readRef s s.historyRef ++ tail := by
  have hne : s.store.length ≠ s.historyRef := Nat.ne_of_gt h
  refine ⟨?_, hne, ?_, ?_, ?_⟩
  · simp only [readRef, mutateRef, getConversationHistory]
    rw [List.getD_eq_getD_get?, List.getD_eq_getD_get?]
    rw [List.get?_eq_getElem?, List.get?_eq_getElem?]
    rw [List.getElem?_set_ne hne]
    rw [List.getElem?_append_left (by simpa using h)]
  · simp only [readRef, getConversationHistory]
    rw [List.getD_append _ _ _ _ h]
  · simp only [readRef, resetAgent]
    rw [List.getD_eq_getD_get?, List.get?_eq_getElem?]
    simp
  · intro cfg client reg sys input
    obtain ⟨t, ht⟩ := runLoop_history_extends cfg client reg sys cfg.max_iterations
      (readRef s s.historyRef ++ [Message.mk Role.user input]) 0
    exact ⟨Message.mk Role.user input :: t, by
      simp [runStreamFrom, ht]⟩

/-- Witness for C9 at a concrete one-message history and an appending
mutation. -/
theorem c9_history_copy_isolated_witness :
    readRef
        (mutateRef (getConversationHistory ⟨[[Message.mk Role.user "q"]], 0⟩).1
          (getConversationHistory ⟨[[Message.mk Role.user "q"]], 0⟩).2
          (fun l => l ++ [Message.mk Role.user "intruder"]))
        0 = [Message.mk Role.user "q"] :=
  ((c9_history_copy_isolated ⟨[[Message.mk Role.user "q"]], 0⟩ (by decide)
      (fun l => l ++ [Message.mk Role.user "intruder"])).1).trans (by rfl)

def Json.isObjV : Json → Bool
  | Json.jobj _ => true
  | _ => false

/-- C10: `try_parse_partial` returns `None` — rather than raising — when the
buffer is empty or absent, when the recovered buffer text does not parse as
JSON, when the parsed value is not a dict, and when typed-model construction
fails in whichever branch was selected (the function itself is total, so no
exception can escape). -/
theorem c10_partial_parse_swallows {Ev : Type} (C : STPCons Ev) (st : STPState)
    (sid : String) :
    ((stpGetBuffer st sid).data.isEmpty = true → tryParsePartial C st sid = (none, st)) ∧
      (jsonLoadsL (stpCompletePartialJson (stpExtract (stpGetBuffer st sid).data)) = none →
        (tryParsePartial C st sid).1 = none) ∧
      (∀ v,
        jsonLoadsL (stpCompletePartialJson (stpExtract (stpGetBuffer st sid).data)) = some v →
        v.isObjV = false → (tryParsePartial C st sid).1 = none) ∧
      ((∀ a b c, C.mkPlan a b c = none) → (∀ a b c d, C.mkStep a b c d = none) →
        (∀ a b c d, C.mkFinal a b c d = none) → (tryParsePartial C st sid).1 = none) := by
  refine ⟨?_, ?_, ?_, ?_⟩
  · intro h
    simp [tryParsePartial, h]
  · intro h
    by_cases hemp : (stpGetBuffer st sid).data.isEmpty
    · simp [tryParsePartial, hemp]
    · simp [tryParsePartial, hemp, h]
  · intro v hv hobj
    by_cases hemp : (stpGetBuffer st sid).data.isEmpty
    · simp [tryParsePartial, hemp]
    · cases v <;> simp_all [tryParsePartial, hemp, hv, Json.isObjV]
  · intro hP hS hF
    by_cases hemp : (stpGetBuffer st sid).data.isEmpty
    · simp [tryParsePartial, hemp]
    · cases hjl : jsonLoadsL (stpCompletePartialJson (stpExtract (stpGetBuffer st sid).data)) with
      | none => simp [tryParsePartial, hemp, hjl]
      | some v =>
        cases v <;> simp [tryParsePartial, hemp, hjl, hP, hS, hF]
        repeat' (first | rfl | split)

/-- Witness for C10: empty state and a buffer whose completion is still not
valid JSON, with always-failing constructors. -/
theorem c10_partial_parse_swallows_witness :
    tryParsePartial c10FailCons STPState.empty "s" = (none, STPState.empty) ∧
      (tryParsePartial c10FailCons c10BadState "s").1 = none :=
  ⟨(c10_partial_parse_swallows c10FailCons STPState.empty "s").1 rfl,
    (c10_partial_parse_swallows c10FailCons c10BadState "s").2.1 rfl⟩

def Json.isArrV : Json → Bool
  | Json.jarr _ => true
  | _ => false

theorem skipWs_eq_dropWhile (cs : List Char) :
    skipWs cs = cs.dropWhile isJsonWs := by
  induction cs with
  | nil => rfl
  | cons c cs ih =>
    by_cases h : isJsonWs c
    · simp [skipWs, List.dropWhile, h, ih]
    · simp [skipWs, List.dropWhile, h]

theorem parseNum_not_objOrArr (cs : List Char) (j : Json) (rest : List Char)
    (h : parseNum cs = some (j, rest)) : j.isObjOrArr = false := by
  unfold parseNum at h
  repeat' split at h
  all_goals simp_all [Json.isObjOrArr]
  all_goals rw [← h.2.1]

theorem parseVal_objKind (fuel : Nat) (cs : List Char) (j : Json) (rest : List Char)
    (h : parseVal fuel cs = some (j, rest))
    (hhead : headIs (skipWs cs) '{' = true) : j.isObjV = true := by
  cases fuel with
  | zero => simp [parseVal] at h
  | succ n =>
    rw [parseVal] at h
    cases hsk : skipWs cs with
    | nil => rw [hsk] at h; simp at h
    | cons c t =>
      rw [hsk] at h
      rw [hsk] at hhead
      have hc : c = '{' := by simpa [headIs] using hhead
      subst hc
      simp only [reduceIte, reduceCtorEq] at h
      cases hob : parseObjBody n t with
      | some pr =>
        obtain ⟨ms, rest'⟩ := pr
        rw [hob] at h
        simp only [Option.some.injEq, Prod.mk.injEq] at h
        rw [← h.1]
        rfl
      | none => rw [hob] at h; simp at h

theorem parseVal_arrKind (fuel : Nat) (cs : List Char) (j : Json) (rest : List Char)
    (h : parseVal fuel cs = some (j, rest))
    (hhead : headIs (skipWs cs) '[' = true) : j.isArrV = true := by
  cases fuel with
  | zero => simp [parseVal] at h
  | succ n =>
    rw [parseVal] at h
    cases hsk : skipWs cs with
    | nil => rw [hsk] at h; simp at h
    | cons c t =>
      rw [hsk] at h
      rw [hsk] at hhead
      have hc : c = '[' := by simpa [headIs] using hhead
      subst hc
      simp only [reduceIte, reduceCtorEq, Char.reduceEq] at h
      cases hab : parseArrBody n t with
      | some pr =>
        obtain ⟨es, rest'⟩ := pr
        rw [hab] at h
        simp only [Option.some.injEq, Prod.mk.injEq] at h
        rw [← h.1]
        rfl
      | none => rw [hab] at h; simp at h

theorem parseVal_kind_head (fuel : Nat) (cs : List Char) (j : Json) (rest : List Char)
    (h : parseVal fuel cs = some (j, rest))
    (hk : j.isObjOrArr = true) :
    headIs (skipWs cs) '{' = true ∨ headIs (skipWs cs) '[' = true := by
  cases fuel with
  | zero => simp [parseVal] at h
  | succ n =>
    rw [parseVal] at h
    cases hsk : skipWs cs with
    | nil => rw [hsk] at h; simp at h
    | cons c t =>
      rw [hsk] at h
      by_cases hbrace : c = '{'
      · left; simp [headIs, hbrace]
      · by_cases hbrack : c = '['
        · right; simp [headIs, hbrack]
        · exfalso
          simp only [hbrace, hbrack, if_false, reduceIte] at h
          by_cases hq : c = '"'
          · subst hq
            simp only [reduceIte] at h
            cases hsb : parseStrBody n [] t with
            | some pr =>
              obtain ⟨s, rest'⟩ := pr
              rw [hsb] at h
              simp only [Option.some.injEq, Prod.mk.injEq] at h
              rw [← h.1] at hk
              simp [Json.isObjOrArr] at hk
            | none => rw [hsb] at h; simp at h
          · rw [if_neg hq] at h
            by_cases ht : c = 't'
            · subst ht
              rw [if_pos rfl] at h
              cases hml : matchLit ['r', 'u', 'e'] t with
              | some rest2 =>
                rw [hml] at h
                simp only [Option.some.injEq, Prod.mk.injEq] at h
                rw [← h.1] at hk
                simp [Json.isObjOrArr] at hk
              | none => rw [hml] at h; simp at h
            · rw [if_neg ht] at h
              by_cases hf : c = 'f'
              · subst hf
                rw [if_pos rfl] at h
                cases hml : matchLit ['a', 'l', 's', 'e'] t with
                | some rest2 =>
                  rw [hml] at h
                  simp only [Option.some.injEq, Prod.mk.injEq] at h
                  rw [← h.1] at hk
                  simp [Json.isObjOrArr] at hk
                | none => rw [hml] at h; simp at h
              · rw [if_neg hf] at h
                by_cases hn : c = 'n'
                · subst hn
                  rw [if_pos rfl] at h
                  cases hml : matchLit ['u', 'l', 'l'] t with
                  | some rest2 =>
                    rw [hml] at h
                    simp only [Option.some.injEq, Prod.mk.injEq] at h
                    rw [← h.1] at hk
                    simp [Json.isObjOrArr] at hk
                  | none => rw [hml] at h; simp at h
                · rw [if_neg hn] at h
                  have := parseNum_not_objOrArr _ _ _ h
                  rw [this] at hk
                  exact Bool.false_ne_true hk

theorem isPyWs_of_isJsonWs (c : Char) (h : isJsonWs c = true) : isPyWs c = true := by
  simp only [isJsonWs, Bool.or_eq_true, decide_eq_true_eq] at h
  simp only [isPyWs, Bool.or_eq_true, decide_eq_true_eq]
  tauto

theorem pyStripList_nil_of_all (cs : List Char) (h : ∀ c ∈ cs, isPyWs c = true) :
    pyStripList cs = [] := by
  unfold pyStripList
  rw [List.dropWhile_eq_nil_iff.mpr h]
  rfl

theorem all_of_pyStripList_nil (cs : List Char) (h : pyStripList cs = []) :
    ∀ c ∈ cs, isPyWs c = true := by
  unfold pyStripList at h
  rw [List.reverse_eq_nil_iff] at h
  have h2 := List.dropWhile_eq_nil_iff.mp h
  intro c hc
  rw [← List.takeWhile_append_dropWhile isPyWs cs] at hc
  rcases List.mem_append.mp hc with h3 | h3
  · exact List.mem_takeWhile_imp h3
  · exact h2 c (List.mem_reverse.mpr h3)

theorem skipWs_ws_append (w : List Char) (x : Char) (xs : List Char)
    (hw : ∀ c ∈ w, isJsonWs c = true) (hx : isJsonWs x = false) :
    skipWs (w ++ x :: xs) = x :: xs := by
  rw [skipWs_eq_dropWhile, List.dropWhile_append, List.dropWhile_eq_nil_iff.mpr hw]
  simp [List.dropWhile_cons, hx]

theorem pyStripList_head (w : List Char) (x : Char) (xs : List Char)
    (hw : ∀ c ∈ w, isPyWs c = true) (hx : isPyWs x = false) :
    ∃ t, pyStripList (w ++ x :: xs) = x :: t := by
  unfold pyStripList
  rw [List.dropWhile_append, List.dropWhile_eq_nil_iff.mpr hw]
  simp only [List.isEmpty_nil, if_true]
  rw [List.dropWhile_cons, if_neg (by simp [hx])]
  rw [List.reverse_cons, List.dropWhile_append]
  by_cases he : (List.dropWhile isPyWs xs.reverse).isEmpty
  · rw [if_pos he, List.dropWhile_cons, if_neg (by simp [hx])]
    exact ⟨[], by simp⟩
  · rw [if_neg he]
    exact ⟨(List.dropWhile isPyWs xs.reverse).reverse, by simp⟩

theorem jsonLoadsL_none_of_skipWs_nil (cs : List Char) (h : skipWs cs = []) :
    jsonLoadsL cs = none := by
  unfold jsonLoadsL
  rw [show 4 * cs.length + 16 = (4 * cs.length + 15) + 1 from rfl]
  simp [parseVal, h]

theorem jsonLoadsL_some_inv (cs : List Char) (j : Json) (h : jsonLoadsL cs = some j) :
    ∃ rest, parseVal (4 * cs.length + 16) cs = some (j, rest) := by
  unfold jsonLoadsL at h
  cases hp : parseVal (4 * cs.length + 16) cs with
  | none => rw [hp] at h; simp at h
  | some pr =>
    obtain ⟨j2, rest⟩ := pr
    rw [hp] at h
    have h2 : (if skipWs rest = [] then some j2 else none) = some j := h
    by_cases hr : skipWs rest = []
    · rw [if_pos hr] at h2
      cases h2
      exact ⟨rest, rfl⟩
    · rw [if_neg hr] at h2
      cases h2

theorem isObjOrArr_of_isObjV (j : Json) (h : j.isObjV = true) : j.isObjOrArr = true := by
  cases j <;> simp_all [Json.isObjV, Json.isObjOrArr]

theorem isObjOrArr_of_isArrV (j : Json) (h : j.isArrV = true) : j.isObjOrArr = true := by
  cases j <;> simp_all [Json.isArrV, Json.isObjOrArr]

theorem take_shape (w : List Char) (x : Char) (r : List Char) (m : Nat) :
    (∀ c ∈ (w ++ x :: r).take m, c ∈ w) ∨ ∃ r2, (w ++ x :: r).take m = w ++ x :: r2 := by
  by_cases hm : m ≤ w.length
  · left
    intro c hc
    rw [List.take_append_eq_append_take, Nat.sub_eq_zero_of_le hm] at hc
    simp only [List.take_zero, List.append_nil] at hc
    exact List.take_subset _ _ hc
  · right
    push_neg at hm
    rw [List.take_append_eq_append_take, List.take_of_length_le (Nat.le_of_lt hm)]
    obtain ⟨k, hk⟩ : ∃ k, m - w.length = k + 1 := ⟨m - w.length - 1, by omega⟩
    rw [hk, List.take_succ_cons]
    exact ⟨r.take k, rfl⟩

theorem ppjTrim_is_take (cs : List Char) : ∃ m, ppjTrim cs = cs.take m := by
  unfold ppjTrim
  split
  · exact ⟨cs.length - 1, List.dropLast_eq_take cs⟩
  · split
    · exact ⟨cs.length - 1, List.dropLast_eq_take cs⟩
    · exact ⟨cs.length - trailingUniEscape cs, rfl⟩

theorem ppjRecover_allWs (cs1 : List Char) (h : ∀ c ∈ cs1, isJsonWs c = true) :
    ppjRecover cs1 = Json.jobj [] := by
  have hskip : skipWs cs1 = [] := by
    rw [skipWs_eq_dropWhile]
    exact List.dropWhile_eq_nil_iff.mpr h
  have hnone := jsonLoadsL_none_of_skipWs_nil cs1 hskip
  have hstrip : pyStripList cs1 = [] :=
    pyStripList_nil_of_all cs1 (fun c hc => isPyWs_of_isJsonWs c (h c hc))
  have hclose : ppjClose cs1 = cs1 := by
    unfold ppjClose
    rw [hstrip]
    simp [headIs]
  unfold ppjRecover
  rw [hnone, hclose, hnone]

theorem jsonLoadsL_obj_result (w r3 : List Char) (hw : ∀ c ∈ w, isJsonWs c = true)
    (j : Json) (h : jsonLoadsL (w ++ '{' :: r3) = some j) : j.isObjV = true := by
  obtain ⟨rest, hp⟩ := jsonLoadsL_some_inv _ j h
  exact parseVal_objKind _ _ _ _ hp
    (by rw [skipWs_ws_append w '{' r3 hw (by decide)]; simp [headIs])

theorem jsonLoadsL_arr_result (w r3 : List Char) (hw : ∀ c ∈ w, isJsonWs c = true)
    (j : Json) (h : jsonLoadsL (w ++ '[' :: r3) = some j) : j.isArrV = true := by
  obtain ⟨rest, hp⟩ := jsonLoadsL_some_inv _ j h
  exact parseVal_arrKind _ _ _ _ hp
    (by rw [skipWs_ws_append w '[' r3 hw (by decide)]; simp [headIs])

theorem ppjClose_objHead (w r2 : List Char) (hw : ∀ c ∈ w, isPyWs c = true) :
    ∃ r3, ppjClose (w ++ '{' :: r2) = w ++ '{' :: r3 := by
  obtain ⟨t, hps⟩ := pyStripList_head w '{' r2 hw (by decide)
  have hH : headIs (pyStripList (w ++ '{' :: r2)) '{' = true := by
    rw [hps]; rfl
  unfold ppjClose
  rw [if_pos hH]
  by_cases hcnt :
      (w ++ '{' :: r2).count '{' > (w ++ '{' :: r2).count '}'
  · rw [if_pos hcnt]
    exact ⟨r2 ++ List.replicate ((w ++ '{' :: r2).count '{' - (w ++ '{' :: r2).count '}') '}',
      by simp [List.append_assoc]⟩
  · rw [if_neg hcnt]
    exact ⟨r2, rfl⟩

theorem ppjClose_arrHead (w r2 : List Char) (hw : ∀ c ∈ w, isPyWs c = true) :
    ∃ r3, ppjClose (w ++ '[' :: r2) = w ++ '[' :: r3 := by
  obtain ⟨t, hps⟩ := pyStripList_head w '[' r2 hw (by decide)
  have hH : headIs (pyStripList (w ++ '[' :: r2)) '{' = false := by
    rw [hps]; rfl
  have hH2 : headIs (pyStripList (w ++ '[' :: r2)) '[' = true := by
    rw [hps]; rfl
  unfold ppjClose
  rw [if_neg (by simp [hH]), if_pos hH2]
  by_cases hcnt :
      (w ++ '[' :: r2).count '[' > (w ++ '[' :: r2).count ']'
  · rw [if_pos hcnt]
    exact ⟨r2 ++ List.replicate ((w ++ '[' :: r2).count '[' - (w ++ '[' :: r2).count ']') ']',
      by simp [List.append_assoc]⟩
  · rw [if_neg hcnt]
    exact ⟨r2, rfl⟩

theorem ppjRecover_objHead (w r2 : List Char) (hw : ∀ c ∈ w, isJsonWs c = true) :
    (ppjRecover (w ++ '{' :: r2)).isObjOrArr = true := by
  have hpw : ∀ c ∈ w, isPyWs c = true := fun c hc => isPyWs_of_isJsonWs c (hw c hc)
  cases hjl : jsonLoadsL (w ++ '{' :: r2) with
  | some j =>
    unfold ppjRecover
    rw [hjl]
    exact isObjOrArr_of_isObjV j (jsonLoadsL_obj_result w r2 hw j hjl)
  | none =>
    obtain ⟨r3, hr3⟩ := ppjClose_objHead w r2 hpw
    unfold ppjRecover
    rw [hjl, hr3]
    cases hjl2 : jsonLoadsL (w ++ '{' :: r3) with
    | some j => exact isObjOrArr_of_isObjV j (jsonLoadsL_obj_result w r3 hw j hjl2)
    | none => rfl

theorem ppjRecover_arrHead (w r2 : List Char) (hw : ∀ c ∈ w, isJsonWs c = true) :
    (ppjRecover (w ++ '[' :: r2)).isObjOrArr = true := by
  have hpw : ∀ c ∈ w, isPyWs c = true := fun c hc => isPyWs_of_isJsonWs c (hw c hc)
  cases hjl : jsonLoadsL (w ++ '[' :: r2) with
  | some j =>
    unfold ppjRecover
    rw [hjl]
    exact isObjOrArr_of_isArrV j (jsonLoadsL_arr_result w r2 hw j hjl)
  | none =>
    obtain ⟨r3, hr3⟩ := ppjClose_arrHead w r2 hpw
    unfold ppjRecover
    rw [hjl, hr3]
    cases hjl2 : jsonLoadsL (w ++ '[' :: r3) with
    | some j => exact isObjOrArr_of_isArrV j (jsonLoadsL_arr_result w r3 hw j hjl2)
    | none => rfl

/-- C7 counterexample: `"4"` is a truncation prefix of the valid JSON
document `"42"`, yet recovery returns the number 4 — neither a mapping nor
a list. -/
theorem c7_counterexample :
    jsonLoads "42" = some (Json.jnum "42") ∧
      List.isPrefixOf "4".data "42".data = true ∧
      parsePartialJson "4" = Json.jnum "4" ∧
      (parsePartialJson "4").isObjOrArr = false := by
  refine ⟨by rfl, by rfl, by rfl, by rfl⟩

/-- C7 amended: the recovery function is total (never raises; every failure
path lands on the empty-object fallback), and for every truncation prefix of
a valid JSON *object or array* document it returns a mapping or a list. -/
theorem c7_prefix_recovery_amended (D P : String)
    (hdoc : jsonKindOk (jsonLoads D) = true)
    (hpre : P.data.isPrefixOf D.data = true) :
    (parsePartialJson P).isObjOrArr = true := by
  cases hD : jsonLoads D with
  | none => rw [hD] at hdoc; simp [jsonKindOk] at hdoc
  | some j =>
    have hD2 : jsonLoadsL D.data = some j := hD
    rw [hD] at hdoc
    have hk : j.isObjOrArr = true := by simpa [jsonKindOk] using hdoc
    obtain ⟨rest, hp⟩ := jsonLoadsL_some_inv D.data j hD2
    have hw : ∀ c ∈ D.data.takeWhile isJsonWs, isJsonWs c = true :=
      fun c hc => List.mem_takeWhile_imp hc
    have hPm : P.data = D.data.take P.data.length :=
      List.prefix_iff_eq_take.mp (List.isPrefixOf_iff_prefix.mp hpre)
    rcases parseVal_kind_head _ _ _ _ hp hk with hbrace | hbrack
    · cases hd : skipWs D.data with
      | nil => rw [hd] at hbrace; simp [headIs] at hbrace
      | cons c tl =>
        rw [hd] at hbrace
        have hc : c = '{' := by simpa [headIs] using hbrace
        subst hc
        have h1 : D.data = D.data.takeWhile isJsonWs ++ '{' :: tl := by
          conv_lhs => rw [← List.takeWhile_append_dropWhile isJsonWs D.data]
          rw [← skipWs_eq_dropWhile, hd]
        rw [h1] at hPm
        unfold parsePartialJson
        by_cases h0 : (pyStripList P.data).isEmpty
        · rw [if_pos h0]; rfl
        · rw [if_neg h0]
          obtain ⟨m1, hm1⟩ := ppjTrim_is_take P.data
          rw [hm1, hPm, List.take_take]
          rcases take_shape (D.data.takeWhile isJsonWs) '{' tl (m1 ⊓ P.data.length) with
            hws | ⟨r2, hr2⟩
          · rw [ppjRecover_allWs _ (fun c hc => hw c (hws c hc))]
            rfl
          · rw [hr2]
            exact ppjRecover_objHead _ r2 hw
    · cases hd : skipWs D.data with
      | nil => rw [hd] at hbrack; simp [headIs] at hbrack
      | cons c tl =>
        rw [hd] at hbrack
        have hc : c = '[' := by simpa [headIs] using hbrack
        subst hc
        have h1 : D.data = D.data.takeWhile isJsonWs ++ '[' :: tl := by
          conv_lhs => rw [← List.takeWhile_append_dropWhile isJsonWs D.data]
          rw [← skipWs_eq_dropWhile, hd]
        rw [h1] at hPm
        unfold parsePartialJson
        by_cases h0 : (pyStripList P.data).isEmpty
        · rw [if_pos h0]; rfl
        · rw [if_neg h0]
          obtain ⟨m1, hm1⟩ := ppjTrim_is_take P.data
          rw [hm1, hPm, List.take_take]
          rcases take_shape (D.data.takeWhile isJsonWs) '[' tl (m1 ⊓ P.data.length) with
            hws | ⟨r2, hr2⟩
          · rw [ppjRecover_allWs _ (fun c hc => hw c (hws c hc))]
            rfl
          · rw [hr2]
            exact ppjRecover_arrHead _ r2 hw

/-- Witness for the amended C7 on a concrete truncated object document. -/
theorem c7_prefix_recovery_amended_witness :
    jsonKindOk (jsonLoads "\x7b\"a\": 1\x7d") = true ∧
      (parsePartialJson "\x7b\"a\"").isObjOrArr = true :=
  ⟨by rfl, c7_prefix_recovery_amended "\x7b\"a\": 1\x7d" "\x7b\"a\"" (by rfl) (by rfl)⟩

theorem retryAttempts_all_fail {E A : Type} (retryable : E → Bool)
    (op : Nat → Except E A) (err : Nat → E)
    (hfail : ∀ i, op i = Except.error (err i))
    (hr : ∀ i, retryable (err i) = true) :
    ∀ fuel i, retryAttempts retryable op i fuel =
      (Except.error (err (i + fuel)), i + fuel + 1) := by
  intro fuel
  induction fuel with
  | zero => intro i; simp [retryAttempts, hfail i]
  | succ n ih =>
    intro i
    have h1 : i + 1 + n = i + (n + 1) := by omega
    simp only [retryAttempts, hfail i, hr i, if_true, ih (i + 1), h1]

theorem retryAttempts_first_ok {E A : Type} (retryable : E → Bool)
    (op : Nat → Except E A) (a : A) (i : Nat) (h : op i = Except.ok a) :
    ∀ fuel, retryAttempts retryable op i fuel = (Except.ok a, i + 1) := by
  intro fuel
  cases fuel <;> simp [retryAttempts, h]

/-- C4 counterexample: in streaming mode a client whose stream raises makes
the exception escape `run_stream` — no terminal `AgentFinalResponse` event
is emitted — because the stream call is not retry-wrapped and only
`LLMCallError` is caught. -/
theorem c4_counterexample :
    (runStream c4StreamCfg c4StreamClient emptyReg "sys" "hi").exc =
        some (RunExc.rawExc "boom") ∧
      (runStream c4StreamCfg c4StreamClient emptyReg "sys" "hi").events =
        [AgentEvent.streamStart] ∧
      firstFinalAnswer (runStream c4StreamCfg c4StreamClient emptyReg "sys" "hi").events =
        none := by
  refine ⟨by rfl, by rfl, by rfl⟩

/-- C4 amended: in non-streaming mode, when the client fails on every retry
attempt the run terminates after the first iteration with a single terminal
`AgentFinalResponse` event carrying the error message (the last exception),
no exception escapes, the client is invoked exactly `max_attempts` times,
and `run` returns the error answer. -/
theorem c4_llm_failure_amended (cfg : AgentCfg) (client : LLMClientM)
    (reg : String → Option (Nat → Except String String)) (sys input : String)
    (err : Nat → String)
    (hns : cfg.stream = false)
    (hiter : 1 ≤ cfg.max_iterations)
    (hra : 1 ≤ cfg.retry.max_attempts)
    (hfail : ∀ i m, client.call i m = Except.error (err i)) :
    (runStream cfg client reg sys input).events =
        [AgentEvent.finalEvent ⟨none, llmErrAnswer (err (cfg.retry.max_attempts - 1))⟩] ∧
      (runStream cfg client reg sys input).exc = none ∧
      (runStream cfg client reg sys input).llmCalls = cfg.retry.max_attempts ∧
      runAgent cfg client reg sys input =
        Except.ok (llmErrAnswer (err (cfg.retry.max_attempts - 1))) := by
  obtain ⟨rem, hrem⟩ : ∃ rem, cfg.max_iterations = rem + 1 :=
    ⟨cfg.max_iterations - 1, by omega⟩
  have hstage : ∀ msgs idx, llmStage cfg client msgs idx =
      LLMStageResult.halt
        [AgentEvent.finalEvent ⟨none, llmErrAnswer (err (idx + (cfg.retry.max_attempts - 1)))⟩]
        none (idx + (cfg.retry.max_attempts - 1) + 1) := by
    intro msgs idx
    unfold llmStage
    rw [if_neg (by simp [hns])]
    rw [retryAttempts_all_fail (fun _ => true) (fun i => client.call i msgs) err
      (fun i => hfail i msgs) (fun _ => rfl) (cfg.retry.max_attempts - 1) idx]
  have harith : 0 + (cfg.retry.max_attempts - 1) = cfg.retry.max_attempts - 1 := by omega
  have harith2 : cfg.retry.max_attempts - 1 + 1 = cfg.retry.max_attempts := by omega
  have htrace : runStream cfg client reg sys input =
      ⟨[AgentEvent.finalEvent ⟨none, llmErrAnswer (err (cfg.retry.max_attempts - 1))⟩],
        none, cfg.retry.max_attempts, [Message.mk Role.user input]⟩ := by
    unfold runStream runStreamFrom
    rw [hrem]
    rw [runLoop]
    rw [hstage]
    rw [harith, harith2]
    rfl
  refine ⟨by rw [htrace], by rw [htrace], by rw [htrace], ?_⟩
  unfold runAgent
  rw [htrace]
  rfl

/-- Witness for the amended C4 with a concrete always-failing client. -/
theorem c4_llm_failure_amended_witness :
    (runStream c4PlainCfg c4FailClient emptyReg "sys" "q").events =
        [AgentEvent.finalEvent ⟨none, llmErrAnswer "down"⟩] ∧
      (runStream c4PlainCfg c4FailClient emptyReg "sys" "q").exc = none ∧
      (runStream c4PlainCfg c4FailClient emptyReg "sys" "q").llmCalls = 3 ∧
      runAgent c4PlainCfg c4FailClient emptyReg "sys" "q" =
        Except.ok (llmErrAnswer "down") :=
  c4_llm_failure_amended c4PlainCfg c4FailClient emptyReg "sys" "q" (fun _ => "down")
    rfl (by decide) (by decide) (fun _ _ => rfl)

theorem firstFinalAnswer_map_token_append (chunks : List String)
    (rest : List AgentEvent) :
    firstFinalAnswer (chunks.map AgentEvent.token ++ rest) = firstFinalAnswer rest := by
  induction chunks with
  | nil => rfl
  | cons c cs ih => simpa [firstFinalAnswer] using ih

theorem llmStage_nonstream_halt (cfg : AgentCfg) (client : LLMClientM)
    (msgs : List Message) (idx : Nat) (evs : List AgentEvent)
    (exc : Option RunExc) (idx2 : Nat)
    (hns : cfg.stream = false)
    (h : llmStage cfg client msgs idx = LLMStageResult.halt evs exc idx2) :
    exc = none := by
  unfold llmStage at h
  rw [if_neg (by simp [hns])] at h
  cases hr : retryAttempts (fun _ => true) (fun i => client.call i msgs) idx
      (cfg.retry.max_attempts - 1) with
  | mk res idx3 =>
    rw [hr] at h
    cases res with
    | ok t => simp at h
    | error e =>
      cases h
      rfl

theorem runLoop_nonfinal (cfg : AgentCfg) (client : LLMClientM)
    (reg : String → Option (Nat → Except String String)) (sys : String)
    (hok : ∀ i m, ∃ t, client.call i m = Except.ok t ∧
      (responseParserParse t).isFinalV = false)
    (hoks : ∀ i m, ∃ chunks, client.callStream i m = (chunks, none) ∧
      (responseParserParse (String.join chunks)).isFinalV = false)
    (hhas : client.hasCallStream = true) :
    ∀ rem hist idx,
      (runLoop cfg client reg sys rem hist idx).exc =
          some (RunExc.maxIterations cfg.max_iterations) ∧
        (runLoop cfg client reg sys rem hist idx).llmCalls = idx + rem ∧
        firstFinalAnswer (runLoop cfg client reg sys rem hist idx).events = none := by
  intro rem
  induction rem with
  | zero => exact fun hist idx => ⟨rfl, rfl, rfl⟩
  | succ n ih =>
    intro hist idx
    cases hstream : cfg.stream with
    | true =>
      obtain ⟨chunks, hcs, hnf⟩ := hoks idx (Message.mk Role.system sys :: hist)
      have hstage : llmStage cfg client (Message.mk Role.system sys :: hist) idx =
          LLMStageResult.text
            (AgentEvent.streamStart :: chunks.map AgentEvent.token ++ [AgentEvent.streamEnd])
            (String.join chunks) (idx + 1) := by
        unfold llmStage
        rw [if_pos hstream, if_pos hhas, hcs]
      cases hresp : responseParserParse (String.join chunks) with
      | final f => rw [hresp] at hnf; simp [AgentResponseV.isFinalV] at hnf
      | plan p =>
        obtain ⟨ihe, ihc, ihf⟩ :=
          ih (hist ++ [Message.mk Role.assistant (String.join chunks)]) (idx + 1)
        refine ⟨?_, ?_, ?_⟩
        · simp only [runLoop, hstage, hresp]
          exact ihe
        · simp only [runLoop, hstage, hresp]
          rw [ihc]
          omega
        · simp only [runLoop, hstage, hresp]
          simp [firstFinalAnswer, firstFinalAnswer_map_token_append, List.append_assoc, ihf]
      | step s =>
        obtain ⟨ihe, ihc, ihf⟩ :=
          ih (hist ++ [Message.mk Role.assistant (String.join chunks),
            Message.mk Role.user
              (formatToolResults (executeToolCalls cfg.retry reg s.tool_calls))]) (idx + 1)
        refine ⟨?_, ?_, ?_⟩
        · simp only [runLoop, hstage, hresp]
          simpa [List.append_assoc] using ihe
        · simp only [runLoop, hstage, hresp]
          rw [show hist ++ [Message.mk Role.assistant (String.join chunks)] ++
              [Message.mk Role.user
                (formatToolResults (executeToolCalls cfg.retry reg s.tool_calls))] =
              hist ++ [Message.mk Role.assistant (String.join chunks),
                Message.mk Role.user
                  (formatToolResults (executeToolCalls cfg.retry reg s.tool_calls))] from
            by simp [List.append_assoc]]
          rw [ihc]
          omega
        · simp only [runLoop, hstage, hresp]
          rw [show hist ++ [Message.mk Role.assistant (String.join chunks)] ++
              [Message.mk Role.user
                (formatToolResults (executeToolCalls cfg.retry reg s.tool_calls))] =
              hist ++ [Message.mk Role.assistant (String.join chunks),
                Message.mk Role.user
                  (formatToolResults (executeToolCalls cfg.retry reg s.tool_calls))] from
            by simp [List.append_assoc]]
          simp [firstFinalAnswer, firstFinalAnswer_map_token_append, List.append_assoc, ihf]
    | false =>
      obtain ⟨t0, hct, hnf⟩ := hok idx (Message.mk Role.system sys :: hist)
      have hstage : llmStage cfg client (Message.mk Role.system sys :: hist) idx =
          LLMStageResult.text [] t0 (idx + 1) := by
        unfold llmStage
        rw [if_neg (by simp [hstream])]
        rw [retryAttempts_first_ok (fun _ => true)
          (fun i => client.call i (Message.mk Role.system sys :: hist)) t0 idx hct
          (cfg.retry.max_attempts - 1)]
      cases hresp : responseParserParse t0 with
      | final f => rw [hresp] at hnf; simp [AgentResponseV.isFinalV] at hnf
      | plan p =>
        obtain ⟨ihe, ihc, ihf⟩ := ih (hist ++ [Message.mk Role.assistant t0]) (idx + 1)
        refine ⟨?_, ?_, ?_⟩
        · simp only [runLoop, hstage, hresp]
          exact ihe
        · simp only [runLoop, hstage, hresp]
          rw [ihc]
          omega
        · simp only [runLoop, hstage, hresp]
          simp [firstFinalAnswer, ihf]
      | step s =>
        obtain ⟨ihe, ihc, ihf⟩ :=
          ih (hist ++ [Message.mk Role.assistant t0,
            Message.mk Role.user
              (formatToolResults (executeToolCalls cfg.retry reg s.tool_calls))]) (idx + 1)
        refine ⟨?_, ?_, ?_⟩
        · simp only [runLoop, hstage, hresp]
          simpa [List.append_assoc] using ihe
        · simp only [runLoop, hstage, hresp]
          rw [show hist ++ [Message.mk Role.assistant t0] ++
              [Message.mk Role.user
                (formatToolResults (executeToolCalls cfg.retry reg s.tool_calls))] =
              hist ++ [Message.mk Role.assistant t0,
                Message.mk Role.user
                  (formatToolResults (executeToolCalls cfg.retry reg s.tool_calls))] from
            by simp [List.append_assoc]]
          rw [ihc]
          omega
        · simp only [runLoop, hstage, hresp]
          rw [show hist ++ [Message.mk Role.assistant t0] ++
              [Message.mk Role.user
                (formatToolResults (executeToolCalls cfg.retry reg s.tool_calls))] =
              hist ++ [Message.mk Role.assistant t0,
                Message.mk Role.user
                  (formatToolResults (executeToolCalls cfg.retry reg s.tool_calls))] from
            by simp [List.append_assoc]]
          simp [firstFinalAnswer, ihf]

theorem runLoop_exc_nonstream (cfg : AgentCfg) (client : LLMClientM)
    (reg : String → Option (Nat → Except String String)) (sys : String)
    (hns : cfg.stream = false) :
    ∀ rem hist idx e, (runLoop cfg client reg sys rem hist idx).exc = some e →
      e = RunExc.maxIterations cfg.max_iterations := by
  intro rem
  induction rem with
  | zero =>
    intro hist idx e h
    simp only [runLoop, Option.some.injEq] at h
    exact h.symm
  | succ n ih =>
    intro hist idx e h
    cases hls : llmStage cfg client (Message.mk Role.system sys :: hist) idx with
    | halt evs exc idx2 =>
      have hexc := llmStage_nonstream_halt cfg client _ idx evs exc idx2 hns hls
      subst hexc
      simp only [runLoop, hls] at h
      cases h
    | text evs resp idx2 =>
      cases hresp : responseParserParse resp with
      | plan p =>
        simp only [runLoop, hls, hresp] at h
        exact ih _ _ _ h
      | step s =>
        simp only [runLoop, hls, hresp] at h
        exact ih _ _ _ h
      | final f =>
        simp only [runLoop, hls, hresp] at h
        cases h

/-- C5: a run in which every LLM response classifies as a plan or step (never
a final response) ends by raising `MaxIterationsError` carrying the
configured limit after exactly `max_iterations` LLM calls, with no final
response event; and in non-streaming mode this is the only exception the
loop can surface. -/
theorem c5_max_iterations_exception (cfg : AgentCfg) (client : LLMClientM)
    (reg : String → Option (Nat → Except String String)) (sys input : String)
    (hok : ∀ i m, ∃ t, client.call i m = Except.ok t ∧
      (responseParserParse t).isFinalV = false)
    (hoks : ∀ i m, ∃ chunks, client.callStream i m = (chunks, none) ∧
      (responseParserParse (String.join chunks)).isFinalV = false)
    (hhas : client.hasCallStream = true) :
    (runStream cfg client reg sys input).exc =
        some (RunExc.maxIterations cfg.max_iterations) ∧
      (runStream cfg client reg sys input).llmCalls = cfg.max_iterations ∧
      firstFinalAnswer (runStream cfg client reg sys input).events = none ∧
      runAgent cfg client reg sys input =
        Except.error (RunExc.maxIterations cfg.max_iterations) ∧
      (cfg.stream = false → ∀ client2 reg2 e,
        (runStream cfg client2 reg2 sys input).exc = some e →
        e = RunExc.maxIterations cfg.max_iterations) := by
  obtain ⟨he, hc, hf⟩ := runLoop_nonfinal cfg client reg sys hok hoks hhas
    cfg.max_iterations [Message.mk Role.user input] 0
  have hc2 : (runStream cfg client reg sys input).llmCalls = cfg.max_iterations := by
    unfold runStream runStreamFrom
    simpa using hc
  have hf2 : firstFinalAnswer (runStream cfg client reg sys input).events = none := hf
  have he2 : (runStream cfg client reg sys input).exc =
      some (RunExc.maxIterations cfg.max_iterations) := he
  refine ⟨he2, hc2, hf2, ?_, ?_⟩
  · unfold runAgent
    simp only [hf2, he2]
  · intro hns client2 reg2 e h
    exact runLoop_exc_nonstream cfg client2 reg2 sys hns cfg.max_iterations _ 0 e h

/-- Witness for C5: a client answering every call with a tool-calling step
and `max_iterations = 3`. -/
theorem c5_max_iterations_exception_witness :
    (runStream c5Cfg c5StepClient emptyReg "sys" "go").exc =
        some (RunExc.maxIterations 3) ∧
      (runStream c5Cfg c5StepClient emptyReg "sys" "go").llmCalls = 3 ∧
      runAgent c5Cfg c5StepClient emptyReg "sys" "go" =
        Except.error (RunExc.maxIterations 3) := by
  have h := c5_max_iterations_exception c5Cfg c5StepClient emptyReg "sys" "go"
    (fun _ _ => ⟨c5StepText, rfl, by rfl⟩)
    (fun _ _ => ⟨[c5StepText], rfl, by rfl⟩) rfl
  exact ⟨h.1, h.2.1, h.2.2.2.1⟩
